import Mathlib

/-!
Verification development for the bandwidth-monitor repository.

The Go sources are shallowly embedded:
* machine integers (`uint64`, `uint16`) are `Nat` with explicit reduction
  modulo `2^64` / `2^16` at the operations where Go wraps;
* `float64` rate arithmetic is modelled exactly over `ℚ` (the code computes
  the same expressions in binary floating point);
* wall-clock times (`time.Time`, stored as `UnixMilli`) are `Int`
  milliseconds, so `time.Sub(..).Seconds() > 0` becomes a positive
  millisecond difference;
* Go maps are association lists updated in first-seen order (`aupdate`),
  which fixes one of the admissible map-iteration orders;
* OS reads (sysfs metadata, VPN sentinel files) are an environment
  parameter `String → IfaceMeta`; the per-name interface-type cache is
  semantically transparent for a fixed environment and is dropped;
* packet parsing by gopacket is represented by the parsed layer data
  (`Packet` / `parsePacket`), and `net.IP.String()` keys are replaced by
  the parsed addresses themselves (the rendering is injective).
-/

namespace BwMon

/-- Modulus of Go `uint64` arithmetic. -/
def U64 : Nat := 2 ^ 64

/-- Go `a - b` on `uint64` values `a b < 2^64`: wraparound subtraction. -/
def u64sub (a b : Nat) : Nat := (a + U64 - b) % U64

/-- Go `a + b` on `uint64`: wraparound addition. -/
def w64add (a b : Nat) : Nat := (a + b) % U64

/-- An IP address: the 32-bit or 128-bit numeric value of the parsed address. -/
inductive IP
  | v4 (a : Nat)
  | v6 (a : Nat)
deriving DecidableEq

/-- Go `ip.To4()`: the 4-byte form, available for IPv4 and IPv4-mapped IPv6. -/
def IP.toV4 : IP → Option Nat
  | .v4 a => some (a % 2 ^ 32)
  | .v6 a => if a % 2 ^ 128 / 2 ^ 32 == 0xffff then some (a % 2 ^ 32) else none

/-- Go `ip.To16()`: the 16-byte numeric form (IPv4 becomes IPv4-mapped). -/
def IP.toV6 : IP → Nat
  | .v4 a => 0xffff * 2 ^ 32 + a % 2 ^ 32
  | .v6 a => a % 2 ^ 128

/-- A CIDR range, as produced by `net.ParseCIDR`. -/
inductive Cidr
  | v4 (base bits : Nat)
  | v6 (base bits : Nat)

/-- Go `(*net.IPNet).Contains`: prefix match after aligning address families. -/
def Cidr.contains : Cidr → IP → Bool
  | .v4 base bits, ip =>
      match ip.toV4 with
      | some a => a / 2 ^ (32 - bits) == base % 2 ^ 32 / 2 ^ (32 - bits)
      | none => false
  | .v6 base bits, ip => ip.toV6 / 2 ^ (128 - bits) == base % 2 ^ 128 / 2 ^ (128 - bits)

/-- Membership of an address in a list of CIDR ranges (`(*Collector).isLocal`). -/
def isLocalIn (nets : List Cidr) (ip : IP) : Bool := nets.any (fun n => n.contains ip)

/-- The fixed private ranges of `isPrivateIP` in the talkers package:
10.0.0.0/8, 172.16.0.0/12, 192.168.0.0/16, 127.0.0.0/8, fc00::/7, ::1/128, fe80::/10. -/
def privateRanges : List Cidr :=
  [ .v4 (10 * 2 ^ 24) 8
  , .v4 (172 * 2 ^ 24 + 16 * 2 ^ 16) 12
  , .v4 (192 * 2 ^ 24 + 168 * 2 ^ 16) 16
  , .v4 (127 * 2 ^ 24) 8
  , .v6 (0xfc * 2 ^ 120) 7
  , .v6 1 128
  , .v6 (0xfe80 * 2 ^ 112) 10 ]

/-- Go `isPrivateIP` from the talkers package (parse failure cannot arise for
addresses that came out of a parsed packet). -/
def isPrivateIP (ip : IP) : Bool := isLocalIn privateRanges ip

/-- L4 classification of a captured packet, by which gopacket layer is present. -/
inductive L4
  | tcp
  | udp
  | icmp
  | other
deriving DecidableEq

/-- IP version of a captured packet. -/
inductive IPVer
  | v4
  | v6
deriving DecidableEq

/-- A captured frame as seen after gopacket decoding: either an IPv4 packet
with its header total-length field, an IPv6 packet with its payload-length
field, or a non-IP frame. -/
inductive Packet
  | ipv4 (src dst : Nat) (totalLength : Nat) (l4 : L4)
  | ipv6 (src dst : Nat) (payloadLength : Nat) (l4 : L4)
  | nonIP

/-- The data extracted from an IP packet by both `processPacket` functions. -/
structure PktInfo where
  src : IP
  dst : IP
  len : Nat
  ver : IPVer
  l4 : L4
deriving DecidableEq

/-- Header extraction: IPv4 length is the total-length field (`uint16`),
IPv6 length is the declared payload length plus the fixed 40-byte header. -/
def parsePacket : Packet → Option PktInfo
  | .ipv4 s d len l4 => some ⟨.v4 s, .v4 d, len % 2 ^ 16, .v4, l4⟩
  | .ipv6 s d pl l4 => some ⟨.v6 s, .v6 d, pl % 2 ^ 16 + 40, .v6, l4⟩
  | .nonIP => none

/-! ### Association-list maps (Go `map` semantics, first-seen key order) -/

/-- Lookup in an association list (Go `m[k]`, comma-ok form). -/
def alookup {κ β : Type} [DecidableEq κ] (k : κ) : List (κ × β) → Option β
  | [] => none
  | p :: t => if p.1 = k then some p.2 else alookup k t

/-- Store into an association list (Go `m[k] = v`): replace the existing
entry, else append a new one. -/
def aupdate {κ β : Type} [DecidableEq κ] (k : κ) (v : β) (l : List (κ × β)) :
    List (κ × β) :=
  if (alookup k l).isSome then l.map (fun p => if p.1 = k then (k, v) else p)
  else l ++ [(k, v)]

end BwMon

namespace BwMon.Collector

/-! ### The kernel-counter collector (`collector/collector.go`) -/

/-- One row of `/proc/net/dev` as parsed by `readProcNetDev`. -/
structure RawCounters where
  rxBytes : Nat
  txBytes : Nat
  rxPackets : Nat
  txPackets : Nat
  rxErrors : Nat
  txErrors : Nat
  rxDropped : Nat
  txDropped : Nat
deriving DecidableEq

/-- Go `rawStat`: counters plus the sample time (`ts`, milliseconds). -/
structure RawStat extends RawCounters where
  ts : Int
deriving DecidableEq

/-- The OS-derived metadata of one interface (sysfs type detection,
operstate, addresses, VPN sentinel); read through the environment. -/
structure IfaceMeta where
  ifaceType : String
  operState : String
  addrs : List String
  vpnRouting : Bool
  vpnRoutingSince : String
  vpnTracked : Bool

/-- Go `InterfaceStat`: the consumer-visible snapshot of one interface. -/
structure InterfaceStat where
  name : String
  ifaceType : String
  operState : String
  addrs : List String
  vpnRouting : Bool
  vpnRoutingSince : String
  vpnTracked : Bool
  rxBytes : Nat
  txBytes : Nat
  rxPackets : Nat
  txPackets : Nat
  rxErrors : Nat
  txErrors : Nat
  rxDropped : Nat
  txDropped : Nat
  rxRate : ℚ
  txRate : ℚ
  timestamp : Int

/-- Go `HistoryPoint`: one rate sample of the 24-hour history. -/
structure HistoryPoint where
  timestamp : Int
  rxRate : ℚ
  txRate : ℚ
deriving DecidableEq

/-- Go `historyPruneAt = 86400`. -/
def historyPruneAt : Nat := 86400

/-- Go `historyMaxAge = 24h`, in milliseconds. -/
def historyMaxAgeMs : Int := 86400000

/-- Go `now.Sub(prev.ts).Seconds()`: elapsed seconds between two millisecond
instants, as an exact rational. -/
def dtSeconds (prevTs now : Int) : ℚ := ((now - prevTs : Int) : ℚ) / 1000

/-- The history-pruning clause of `poll` / `rateLoop`: once the length
exceeds `historyPruneAt`, drop the leading points older than 24 hours. -/
def prunePass (now : Int) (h : List HistoryPoint) : List HistoryPoint :=
  if historyPruneAt < h.length then
    h.dropWhile (fun p => decide (p.timestamp < now - historyMaxAgeMs))
  else h

/-- Build the `InterfaceStat` written by `poll` for one interface. -/
def mkIfaceStat (name : String) (m : IfaceMeta) (cur : RawCounters) (now : Int)
    (rx tx : ℚ) : InterfaceStat :=
  { name := name
  , ifaceType := m.ifaceType
  , operState := m.operState
  , addrs := m.addrs
  , vpnRouting := m.vpnRouting
  , vpnRoutingSince := m.vpnRoutingSince
  , vpnTracked := m.vpnTracked
  , rxBytes := cur.rxBytes
  , txBytes := cur.txBytes
  , rxPackets := cur.rxPackets
  , txPackets := cur.txPackets
  , rxErrors := cur.rxErrors
  , txErrors := cur.txErrors
  , rxDropped := cur.rxDropped
  , txDropped := cur.txDropped
  , rxRate := rx
  , txRate := tx
  , timestamp := now }

/-- The body of the per-interface loop of `poll`: compute rates when a
previous baseline exists and the elapsed time is positive (Go `uint64`
subtraction wraps modulo `2^64`), record the counters as the new baseline,
and append (then maybe prune) a history point when a baseline existed. -/
def tickIface (name : String) (m : IfaceMeta) (prev? : Option RawStat)
    (cur : RawCounters) (now : Int) (hist : List HistoryPoint) :
    InterfaceStat × RawStat × List HistoryPoint :=
  let rates : ℚ × ℚ :=
    match prev? with
    | none => (0, 0)
    | some prev =>
        let dt := dtSeconds prev.ts now
        if 0 < dt then
          ((u64sub cur.rxBytes prev.rxBytes : ℚ) / dt,
           (u64sub cur.txBytes prev.txBytes : ℚ) / dt)
        else (0, 0)
  let iface := mkIfaceStat name m cur now rates.1 rates.2
  let prevN : RawStat := ⟨cur, now⟩
  let histN :=
    match prev? with
    | none => hist
    | some _ => prunePass now (hist ++ [⟨now, rates.1, rates.2⟩])
  (iface, prevN, histN)

/-- Per-interface collector state: the previous baseline and the history. -/
def IfState := Option RawStat × List HistoryPoint

/-- One tick for a single interface, threading `IfState`. -/
def tickStep (name : String) (m : IfaceMeta) (s : IfState)
    (tick : RawCounters × Int) : IfState :=
  let r := tickIface name m s.1 tick.1 tick.2 s.2
  (some r.2.1, r.2.2)

/-- A sequence of ticks for a single interface. -/
def runTicks (name : String) (m : IfaceMeta) (ticks : List (RawCounters × Int))
    (s : IfState) : IfState :=
  ticks.foldl (tickStep name m) s

/-- The collector state: `current`, `previous` and `history` maps. -/
structure CState where
  current : List (String × InterfaceStat)
  previous : List (String × RawStat)
  history : List (String × List HistoryPoint)

/-- Go `poll`: on enumeration failure nothing is touched; otherwise drop
interfaces absent from the fresh enumeration (history is kept), then run
the per-interface tick for every enumerated interface. -/
def poll (env : String → IfaceMeta)
    (enum : Except String (List (String × RawCounters))) (now : Int)
    (st : CState) : CState :=
  match enum with
  | .error _ => st
  | .ok stats =>
      let pruned : CState :=
        { current := st.current.filter (fun p => (alookup p.1 stats).isSome)
        , previous := st.previous.filter (fun p => (alookup p.1 stats).isSome)
        , history := st.history }
      stats.foldl (fun acc nc =>
        let prev? := alookup nc.1 acc.previous
        let hist := (alookup nc.1 acc.history).getD []
        let r := tickIface nc.1 (env nc.1) prev? nc.2 now hist
        { current := aupdate nc.1 r.1 acc.current
        , previous := aupdate nc.1 r.2.1 acc.previous
        , history := aupdate nc.1 r.2.2 acc.history }) pruned

/-- Go `GetAll`: a copy of every current interface snapshot. -/
def getAll (st : CState) : List InterfaceStat := st.current.map (fun p => p.2)

/-- Go `GetHistory`: a copy of the full per-interface history map. -/
def getHistory (st : CState) : List (String × List HistoryPoint) := st.history

/-- Go `SparkPoint`: a rate pair for sparkline rendering. -/
structure SparkPoint where
  rx : ℚ
  tx : ℚ
deriving DecidableEq

/-- Projection of a history point to a spark point. -/
def toSpark (p : HistoryPoint) : SparkPoint := ⟨p.rxRate, p.txRate⟩

/-- The window-selection loop of `GetSparklines`: skip leading points
older than the cutoff. -/
def windowed (cutoff : Int) (hist : List HistoryPoint) : List HistoryPoint :=
  hist.dropWhile (fun p => decide (p.timestamp < cutoff))

/-- The subsampling index of `GetSparklines`: `int(float64(i)*step)` with
`step = len/maxPoints`, clamped to the last index.  The float expression
is modelled by its exact value `⌊i*len/maxPoints⌋`. -/
def sparkIdx (len maxPoints i : Nat) : Nat := min (i * len / maxPoints) (len - 1)

/-- Go `GetSparklines` for one history series: the windowed suffix, returned
unchanged when short enough, else subsampled to `maxPoints` existing
samples by nearest-index stepping. -/
def sparklinesOf (cutoff : Int) (maxPoints : Nat) (hist : List HistoryPoint) :
    List SparkPoint :=
  let pts := windowed cutoff hist
  if pts.length = 0 then []
  else if pts.length ≤ maxPoints then pts.map toSpark
  else (List.range maxPoints).map
    (fun i => toSpark (pts.getD (sparkIdx pts.length maxPoints i) ⟨0, 0, 0⟩))

/-- Go `GetSparklines` over the whole history map (empty series are omitted,
matching the `continue`). -/
def getSparklines (now durMs : Int) (maxPoints : Nat) (st : CState) :
    List (String × List SparkPoint) :=
  (st.history.map (fun p => (p.1, sparklinesOf (now - durMs) maxPoints p.2))).filter
    (fun p => !p.2.isEmpty)

/-- All-zero counters, used by concrete scenarios. -/
def czero : RawCounters := ⟨0, 0, 0, 0, 0, 0, 0, 0⟩

/-- A fixed interface environment, used by concrete scenarios. -/
def meta0 : IfaceMeta := ⟨"physical", "up", [], false, "", false⟩

/-- A history of `n` points at one-millisecond spacing and zero rates. -/
def milliHist (n : Nat) : List HistoryPoint :=
  (List.range n).map (fun i : Nat => { timestamp := (i : Int), rxRate := 0, txRate := 0 })

/-- A concrete five-point time-ordered history for witnesses. -/
def hist5 : List HistoryPoint :=
  [⟨1000, 1, 2⟩, ⟨2000, 3, 4⟩, ⟨3000, 5, 6⟩, ⟨4000, 7, 8⟩, ⟨5000, 9, 10⟩]

end BwMon.Collector

namespace BwMon.Capture

/-! ### The passive-capture collector (capture-mode `collector` package) -/

/-- The packet-level accumulators of the capture collector (all `uint64`). -/
structure CaptureAcc where
  rxBytes : Nat
  txBytes : Nat
  rxPackets : Nat
  txPackets : Nat
deriving DecidableEq

/-- Go `processPacket` of the capture collector: classify by local-network
membership of source and destination; local→remote counts as TX,
remote→local as RX, local→local as both, remote→remote as neither. -/
def processPacket (localNets : List Cidr) (pkt : Packet) (a : CaptureAcc) :
    CaptureAcc :=
  match parsePacket pkt with
  | none => a
  | some info =>
      let srcLocal := isLocalIn localNets info.src
      let dstLocal := isLocalIn localNets info.dst
      if srcLocal && !dstLocal then
        { a with
            txBytes := w64add a.txBytes info.len
            txPackets := w64add a.txPackets 1 }
      else if !srcLocal && dstLocal then
        { a with
            rxBytes := w64add a.rxBytes info.len
            rxPackets := w64add a.rxPackets 1 }
      else if srcLocal && dstLocal then
        { rxBytes := w64add a.rxBytes info.len
        , txBytes := w64add a.txBytes info.len
        , rxPackets := w64add a.rxPackets 1
        , txPackets := w64add a.txPackets 1 }
      else a

/-- A concrete LAN configuration (192.168.0.0/16) for witnesses. -/
def lanNets : List Cidr := [.v4 (192 * 2 ^ 24 + 168 * 2 ^ 16) 16]

/-- Zeroed accumulators. -/
def acc0 : CaptureAcc := ⟨0, 0, 0, 0⟩

end BwMon.Capture

namespace BwMon.Talkers

/-! ### The top-talkers tracker (`talkers` package) -/

/-- Per-remote-IP accumulator inside one bucket (`hostAccum`). -/
structure HostAccum where
  bytes : Nat
  packets : Nat
deriving DecidableEq

/-- The protocol label attributed by `processPacket`. -/
def protoName : L4 → String
  | .tcp => "TCP"
  | .udp => "UDP"
  | .icmp => "ICMP"
  | .other => "Other"

/-- The IP-version label attributed by `processPacket`. -/
def ipVerName : IPVer → String
  | .v4 => "IPv4"
  | .v6 => "IPv6"

/-- One time bucket: aligned timestamp (ms), per-IP accumulators, and
protocol / IP-version byte totals. -/
structure Bucket where
  timestamp : Int
  hosts : List (IP × HostAccum)
  protoBytes : List (String × Nat)
  ipVerBytes : List (String × Nat)
deriving DecidableEq

/-- Go `bucketSize = 1 minute`, in milliseconds. -/
def bucketSizeMs : Int := 60000

/-- Go `maxAge = 24h`, in milliseconds. -/
def maxAgeMs : Int := 86400000

/-- A fresh empty bucket at the given aligned timestamp. -/
def mkBucket (ts : Int) : Bucket := ⟨ts, [], [], []⟩

/-- Geo metadata returned by the MMDB lookup. -/
structure Geo where
  country : String
  countryName : String
  asn : Nat
  asOrg : String

/-- The tracker state: sealed buckets, the current open bucket, the
reverse-DNS cache and the optional geo database. -/
structure Tracker where
  buckets : List Bucket
  current : Option Bucket
  dnsCache : List (IP × String)
  geoDB : Option (IP → Option Geo)

/-- Injective rendering standing in for `net.IP.String()`. -/
def IP.str : IP → String
  | .v4 a => "v4-" ++ toString a
  | .v6 a => "v6-" ++ toString a

/-- Go `resolveIP` as seen by the query caller: the cached hostname, or the
bare IP until the detached resolution completes. -/
def resolveIP (t : Tracker) (ip : IP) : String :=
  (alookup ip t.dnsCache).getD (IP.str ip)

/-- The query-time projection (`TalkerStat`). -/
structure TalkerStat where
  ip : IP
  hostname : String
  country : String
  countryName : String
  asn : Nat
  asOrg : String
  totalBytes : Nat
  rateBytes : ℚ
  packets : Nat
deriving DecidableEq

/-- Go `enrichGeo`: populate the geo fields from the database when available. -/
def enrichGeo (t : Tracker) (s : TalkerStat) : TalkerStat :=
  match t.geoDB with
  | none => s
  | some look =>
      match look s.ip with
      | none => s
      | some g =>
          { s with
              country := g.country
              countryName := g.countryName
              asn := g.asn
              asOrg := g.asOrg }

/-- The accumulator bump of `processPacket` for one non-local role. -/
def bumpHost (ip : IP) (len : Nat) (hosts : List (IP × HostAccum)) :
    List (IP × HostAccum) :=
  let old := (alookup ip hosts).getD ⟨0, 0⟩
  aupdate ip ⟨w64add old.bytes len, w64add old.packets 1⟩ hosts

/-- Bump of a keyed byte total (protocol / IP-version map). -/
def bumpKey {κ : Type} [DecidableEq κ] (k : κ) (n : Nat) (l : List (κ × Nat)) :
    List (κ × Nat) :=
  aupdate k (w64add ((alookup k l).getD 0) n) l

/-- Go `processPacket` of the tracker: attribute the packet length and one
packet to each non-local role in the current bucket, then add the length
to the protocol and IP-version totals unconditionally. -/
def processPacket (pkt : Packet) (t : Tracker) : Tracker :=
  match parsePacket pkt with
  | none => t
  | some info =>
      match t.current with
      | none => t
      | some cur =>
          let hosts := [info.src, info.dst].foldl
            (fun hs ip => if isPrivateIP ip then hs else bumpHost ip info.len hs)
            cur.hosts
          let curN : Bucket :=
            { cur with
                hosts := hosts
                protoBytes := bumpKey (protoName info.l4) info.len cur.protoBytes
                ipVerBytes := bumpKey (ipVerName info.ver) info.len cur.ipVerBytes }
          { t with current := some curN }

/-- Go `time.Truncate(bucketSize)` on a non-negative millisecond instant. -/
def truncMinute (now : Int) : Int := now / bucketSizeMs * bucketSizeMs

/-- Go `rotateBuckets` tick body: seal the current bucket, prune sealed
buckets older than 24 hours from the oldest end, open a fresh bucket. -/
def rotateStep (now : Int) (t : Tracker) : Tracker :=
  let sealed :=
    match t.current with
    | some c => t.buckets ++ [c]
    | none => t.buckets
  let pruned := sealed.dropWhile (fun b => decide (b.timestamp < now - maxAgeMs))
  { t with buckets := pruned, current := some (mkBucket (truncMinute now)) }

/-- The state right after `Run` opened the first bucket. -/
def initTracker (startMs : Int) : Tracker :=
  { buckets := [], current := some (mkBucket (truncMinute startMs))
  , dnsCache := [], geoDB := none }

/-- Pure 1-minute rotation for `n` ticks starting from `initTracker 0`
(the 25-hour simulation scenario: no traffic, rotation only). -/
def simulateRot (n : Nat) : Tracker :=
  (List.range n).foldl (fun t (i : Nat) => rotateStep (((i : Int) + 1) * bucketSizeMs) t)
    (initTracker 0)

/-- Merge the per-IP accumulators of one bucket into the running totals
(the aggregation loop of `TopByVolume`). -/
def addHosts (totals : List (IP × HostAccum)) (hosts : List (IP × HostAccum)) :
    List (IP × HostAccum) :=
  hosts.foldl (fun ts p =>
    let old := (alookup p.1 ts).getD ⟨0, 0⟩
    aupdate p.1 ⟨w64add old.bytes p.2.bytes, w64add old.packets p.2.packets⟩ ts)
    totals

/-- Per-IP totals over all sealed buckets plus the current bucket. -/
def volumeTotals (t : Tracker) : List (IP × HostAccum) :=
  let base := t.buckets.foldl (fun ts b => addHosts ts b.hosts) []
  match t.current with
  | none => base
  | some c => addHosts base c.hosts

/-- Comparator of the `TopByVolume` sort (descending by total bytes).
`sort.Slice` leaves the algorithm unspecified; the model sorts with a
structurally recursive insertion sort over the same ordering. -/
def byVolumeGe (a b : TalkerStat) : Prop := b.totalBytes ≤ a.totalBytes

instance : DecidableRel byVolumeGe := fun _ _ => Nat.decLe _ _

/-- Comparator of the `TopByBandwidth` sort (descending by rate). -/
def byRateGe (a b : TalkerStat) : Prop := b.rateBytes ≤ a.rateBytes

instance : DecidableRel byRateGe := fun _ _ => Rat.instDecidableLe _ _

/-- Go `TopByVolume`: sum per-IP accumulators across the whole window, enrich,
sort descending by total bytes, truncate to `n`. -/
def topByVolume (n : Nat) (t : Tracker) : List TalkerStat :=
  let list := (volumeTotals t).map (fun p =>
    enrichGeo t
      { ip := p.1, hostname := resolveIP t p.1, country := "", countryName := ""
      , asn := 0, asOrg := "", totalBytes := p.2.bytes, rateBytes := 0
      , packets := p.2.packets })
  (list.insertionSort byVolumeGe).take n

/-- Go `time.Since(bucket start).Seconds()`, floored at 1 second. -/
def elapsedSec (now ts : Int) : ℚ :=
  let e : ℚ := ((now - ts : Int) : ℚ) / 1000
  if e < 1 then 1 else e

/-- Go `TopByBandwidth` (top by rate): uses only the current open bucket;
rate is bucket bytes over `max 1 elapsed`; sorted descending by rate. -/
def topByBandwidth (n : Nat) (now : Int) (t : Tracker) : List TalkerStat :=
  match t.current with
  | none => []
  | some cur =>
      let el := elapsedSec now cur.timestamp
      let list := cur.hosts.map (fun p =>
        enrichGeo t
          { ip := p.1, hostname := resolveIP t p.1, country := ""
          , countryName := "", asn := 0, asOrg := ""
          , totalBytes := p.2.bytes, rateBytes := (p.2.bytes : ℚ) / el
          , packets := p.2.packets })
      (list.insertionSort byRateGe).take n

/-- The per-IP byte total an entry of `topByVolume` should report: the
`uint64` sum of the accumulators of that IP over sealed buckets plus the
current bucket, in window order. -/
def ipTotalBytes (t : Tracker) (ip : IP) : Nat :=
  (t.buckets ++ t.current.toList).foldl
    (fun acc b => w64add acc (((alookup ip b.hosts).getD ⟨0, 0⟩).bytes)) 0

/-- The per-IP packet total, analogously. -/
def ipTotalPackets (t : Tracker) (ip : IP) : Nat :=
  (t.buckets ++ t.current.toList).foldl
    (fun acc b => w64add acc (((alookup ip b.hosts).getD ⟨0, 0⟩).packets)) 0

/-- The hosts of the current open bucket (empty when none is open). -/
def curHosts (t : Tracker) : List (IP × HostAccum) :=
  match t.current with
  | some c => c.hosts
  | none => []

/-- The address 8.8.8.8 as a 32-bit value: an external address. -/
def extIPn : Nat := 8 * 2 ^ 24 + 8 * 2 ^ 16 + 8 * 2 ^ 8 + 8

/-- The address 192.168.1.1 as a 32-bit value: a local (private) address. -/
def locIPn : Nat := 192 * 2 ^ 24 + 168 * 2 ^ 16 + 2 ^ 8 + 1

/-- A tracker that has just opened its first bucket and seen no traffic. -/
def tEmpty : Tracker :=
  { buckets := [], current := some (mkBucket 0), dnsCache := [], geoDB := none }

/-- The C4 scenario: three IPv4 packets of 100, 200 and 300 bytes between
the external IP and the local IP, all inside one bucket. -/
def scenarioT : Tracker :=
  processPacket (.ipv4 extIPn locIPn 300 .tcp)
    (processPacket (.ipv4 locIPn extIPn 200 .tcp)
      (processPacket (.ipv4 extIPn locIPn 100 .tcp) tEmpty))

/-- One minute-aligned empty simulation bucket. -/
def simBucket (j : Nat) : Bucket := mkBucket (60000 * (j : Int))

/-- All accumulator values in a host table are reduced modulo `2^64`. -/
def entriesBounded (l : List (IP × HostAccum)) : Prop :=
  ∀ p ∈ l, p.2.bytes < U64 ∧ p.2.packets < U64

/-- The address 1.1.1.1 as a 32-bit value: a second external address. -/
def extBn : Nat := 2 ^ 24 + 2 ^ 16 + 2 ^ 8 + 1

/-- Two equal-size packets from two distinct external IPs: a volume tie. -/
def tieT : Tracker :=
  processPacket (.ipv4 extBn locIPn 100 .udp)
    (processPacket (.ipv4 extIPn locIPn 100 .tcp) tEmpty)

instance : IsTotal TalkerStat byVolumeGe :=
  ⟨fun a b => le_total b.totalBytes a.totalBytes⟩

instance : IsTrans TalkerStat byVolumeGe :=
  ⟨fun _ _ _ hab hbc => le_trans hbc hab⟩

instance : IsTotal TalkerStat byRateGe :=
  ⟨fun a b => le_total b.rateBytes a.rateBytes⟩

instance : IsTrans TalkerStat byRateGe :=
  ⟨fun _ _ _ hab hbc => le_trans hbc hab⟩

end BwMon.Talkers

namespace BwMon

/-! ### Association-list lemmas -/

theorem alookup_eq_none_iff {κ β : Type} [DecidableEq κ] (k : κ)
    (l : List (κ × β)) : alookup k l = none ↔ k ∉ l.map Prod.fst := by
  induction l with
  | nil => simp [alookup]
  | cons p t ih =>
      by_cases h : p.1 = k
      · simp [alookup, h]
      · rw [show alookup k (p :: t) = alookup k t from by simp [alookup, h]]
        rw [ih]
        simp only [List.map_cons, List.mem_cons]
        constructor
        · intro hk hc
          rcases hc with hc | hc
          · exact h hc.symm
          · exact hk hc
        · intro hk hc
          exact hk (Or.inr hc)

theorem alookup_map_replace {κ β : Type} [DecidableEq κ] (k : κ) (v : β)
    (l : List (κ × β)) (h : (alookup k l).isSome) :
    alookup k (l.map (fun p => if p.1 = k then (k, v) else p)) = some v := by
  induction l with
  | nil => simp [alookup] at h
  | cons p t ih =>
      by_cases hp : p.1 = k
      · simp [alookup, hp]
      · have h' : (alookup k t).isSome := by
          simpa [alookup, hp] using h
        simpa [alookup, hp] using ih h'

theorem alookup_map_replace_other {κ β : Type} [DecidableEq κ] {k k' : κ}
    (v : β) (l : List (κ × β)) (h : k' ≠ k) :
    alookup k (l.map (fun p => if p.1 = k' then (k', v) else p)) = alookup k l := by
  induction l with
  | nil => rfl
  | cons p t ih =>
      by_cases hp : p.1 = k'
      · have hpk : ¬ p.1 = k := fun hc => h (hp ▸ hc ▸ rfl)
        simp [alookup, hp, hpk, h, ih]
      · by_cases hq : p.1 = k
        · simp [alookup, hp, hq, Ne.symm h]
        · simp [alookup, hp, hq, ih]

theorem alookup_append_single_self {κ β : Type} [DecidableEq κ] {k : κ} (v : β)
    (l : List (κ × β)) (h : alookup k l = none) :
    alookup k (l ++ [(k, v)]) = some v := by
  induction l with
  | nil => simp [alookup]
  | cons p t ih =>
      by_cases hp : p.1 = k
      · rw [alookup, if_pos hp] at h
        cases h
      · rw [alookup, if_neg hp] at h
        rw [List.cons_append, alookup, if_neg hp]
        exact ih h

theorem alookup_append_single_other {κ β : Type} [DecidableEq κ] {k k' : κ}
    (v : β) (l : List (κ × β)) (h : k' ≠ k) :
    alookup k (l ++ [(k', v)]) = alookup k l := by
  induction l with
  | nil => simp [alookup, h]
  | cons p t ih =>
      by_cases hq : p.1 = k
      · rw [List.cons_append, alookup, if_pos hq, alookup, if_pos hq]
      · rw [List.cons_append, alookup, if_neg hq, alookup, if_neg hq]
        exact ih

theorem alookup_aupdate_self {κ β : Type} [DecidableEq κ] (k : κ) (v : β)
    (l : List (κ × β)) : alookup k (aupdate k v l) = some v := by
  unfold aupdate
  rcases ho : alookup k l with _ | w
  · rw [if_neg (by simp [ho])]
    exact alookup_append_single_self v l ho
  · rw [if_pos (by simp [ho])]
    exact alookup_map_replace k v l (by simp [ho])

theorem alookup_aupdate_other {κ β : Type} [DecidableEq κ] {k k' : κ} (v : β)
    (l : List (κ × β)) (h : k' ≠ k) :
    alookup k (aupdate k' v l) = alookup k l := by
  unfold aupdate
  by_cases hs : (alookup k' l).isSome
  · rw [if_pos hs]
    exact alookup_map_replace_other v l h
  · rw [if_neg hs]
    exact alookup_append_single_other v l h

theorem fstmap_aupdate_of_isSome {κ β : Type} [DecidableEq κ] (k : κ) (v : β)
    (l : List (κ × β)) (h : (alookup k l).isSome) :
    (aupdate k v l).map Prod.fst = l.map Prod.fst := by
  unfold aupdate
  rw [if_pos h, List.map_map]
  refine List.map_congr_left ?_
  intro p _
  by_cases hp : p.1 = k
  · simp [hp, Function.comp]
  · simp [hp, Function.comp]

theorem fstmap_aupdate_of_none {κ β : Type} [DecidableEq κ] (k : κ) (v : β)
    (l : List (κ × β)) (h : alookup k l = none) :
    (aupdate k v l).map Prod.fst = l.map Prod.fst ++ [k] := by
  unfold aupdate
  rw [if_neg (by simp [h])]
  simp

theorem nodup_fstmap_aupdate {κ β : Type} [DecidableEq κ] (k : κ) (v : β)
    (l : List (κ × β)) (h : (l.map Prod.fst).Nodup) :
    ((aupdate k v l).map Prod.fst).Nodup := by
  rcases ho : alookup k l with _ | w
  · rw [fstmap_aupdate_of_none k v l ho]
    have hk : k ∉ l.map Prod.fst := (alookup_eq_none_iff k l).mp ho
    simp [List.nodup_append, h, hk]
  · rw [fstmap_aupdate_of_isSome k v l (by simp [ho])]
    exact h

theorem alookup_of_mem_nodup {κ β : Type} [DecidableEq κ] {k : κ} {v : β}
    {l : List (κ × β)} (hn : (l.map Prod.fst).Nodup) (hm : (k, v) ∈ l) :
    alookup k l = some v := by
  induction l with
  | nil => simp at hm
  | cons p t ih =>
      rw [List.map_cons, List.nodup_cons] at hn
      rcases List.mem_cons.mp hm with he | ht
      · simp [alookup, ← he]
      · have hkmem : k ∈ t.map Prod.fst := by
          have := List.mem_map_of_mem Prod.fst ht
          simpa using this
        have hp : p.1 ≠ k := by
          intro hc
          exact hn.1 (by rw [hc]; exact hkmem)
        rw [alookup, if_neg hp]
        exact ih hn.2 ht

theorem mem_of_alookup {κ β : Type} [DecidableEq κ] {k : κ} {v : β}
    {l : List (κ × β)} (h : alookup k l = some v) : (k, v) ∈ l := by
  induction l with
  | nil => simp [alookup] at h
  | cons p t ih =>
      obtain ⟨a, b⟩ := p
      by_cases hp : a = k
      · subst hp
        rw [alookup, if_pos rfl] at h
        injection h with h2
        subst h2
        exact List.mem_cons_self _ _
      · rw [alookup, if_neg hp] at h
        exact List.mem_cons_of_mem _ (ih h)

/-! ### dropWhile lemmas -/

theorem dropWhile_eq_drop {α : Type} (p : α → Bool) (l : List α) :
    l.dropWhile p = l.drop (l.takeWhile p).length := by
  induction l with
  | nil => rfl
  | cons a t ih =>
      by_cases h : p a
      · simp [List.dropWhile_cons, List.takeWhile_cons, h, ih]
      · simp [List.dropWhile_cons, List.takeWhile_cons, h]

theorem dropWhile_idem {α : Type} (p : α → Bool) (l : List α) :
    (l.dropWhile p).dropWhile p = l.dropWhile p := by
  induction l with
  | nil => rfl
  | cons a t ih =>
      by_cases h : p a
      · simp [List.dropWhile_cons, h, ih]
      · simp [List.dropWhile_cons, h]

theorem w64add_of_lt {a b : Nat} (h : a + b < U64) : w64add a b = a + b :=
  Nat.mod_eq_of_lt h

theorem U64_eq : U64 = 18446744073709551616 := by norm_num [U64]

theorem u64sub_of_le {a b : Nat} (hb : b ≤ a) (ha : a - b < U64) :
    u64sub a b = a - b := by
  rw [U64_eq] at ha
  unfold u64sub
  rw [U64_eq]
  omega

theorem u64sub_of_lt {a b : Nat} (h : a < b) (hb : b < U64) :
    u64sub a b = U64 - (b - a) := by
  rw [U64_eq] at hb
  unfold u64sub
  rw [U64_eq]
  omega

theorem dropWhile_eq_filter_of_sorted {α : Type} (p : α → Bool) (le : α → α → Prop)
    (l : List α) (hs : l.Pairwise le)
    (hmono : ∀ a b, le a b → p b = true → p a = true) :
    l.dropWhile p = l.filter (fun x => !p x) := by
  induction l with
  | nil => rfl
  | cons a t ih =>
      have hs' : t.Pairwise le := (List.pairwise_cons.mp hs).2
      by_cases h : p a
      · simp [List.dropWhile_cons, List.filter_cons, h, ih hs']
      · have hall : ∀ x ∈ t, (!p x) = true := by
          intro x hx
          have hax : le a x := (List.pairwise_cons.mp hs).1 x hx
          by_cases hpx : p x
          · exact absurd (hmono a x hax hpx) h
          · simp [hpx]
        rw [List.dropWhile_cons, if_neg h]
        have hfull : List.filter (fun x => !p x) (a :: t) = a :: t := by
          rw [List.filter_eq_self]
          intro x hx
          rcases List.mem_cons.mp hx with he | ht
          · simp [he, h]
          · exact hall x ht
        rw [hfull]

end BwMon

namespace BwMon.Collector

/-! ### Collector lemmas and claim theorems -/

theorem dtSeconds_pos_iff (a b : Int) : 0 < dtSeconds a b ↔ a < b := by
  unfold dtSeconds
  rw [div_pos_iff]
  constructor
  · rintro (⟨h, _⟩ | ⟨_, h⟩)
    · exact_mod_cast sub_pos.mp (by exact_mod_cast h)
    · norm_num at h
  · intro h
    left
    constructor
    · exact_mod_cast sub_pos.mpr (by exact_mod_cast h)
    · norm_num

theorem tickIface_baseline (name : String) (m : IfaceMeta)
    (prev? : Option RawStat) (cur : RawCounters) (now : Int)
    (hist : List HistoryPoint) :
    (tickIface name m prev? cur now hist).2.1 = ⟨cur, now⟩ := by
  cases prev? <;> rfl

theorem tickIface_hist_none (name : String) (m : IfaceMeta) (cur : RawCounters)
    (now : Int) (hist : List HistoryPoint) :
    (tickIface name m none cur now hist).2.2 = hist := rfl

theorem tickIface_hist_some (name : String) (m : IfaceMeta) (prev : RawStat)
    (cur : RawCounters) (now : Int) (hist : List HistoryPoint) :
    ∃ rx tx, (tickIface name m (some prev) cur now hist).2.2
      = prunePass now (hist ++ [⟨now, rx, tx⟩]) :=
  ⟨_, _, rfl⟩

theorem tickIface_rxRate_pos (name : String) (m : IfaceMeta) (prev : RawStat)
    (cur : RawCounters) (now : Int) (hist : List HistoryPoint)
    (hdt : 0 < dtSeconds prev.ts now) :
    (tickIface name m (some prev) cur now hist).1.rxRate
      = (u64sub cur.rxBytes prev.rxBytes : ℚ) / dtSeconds prev.ts now
    ∧ (tickIface name m (some prev) cur now hist).1.txRate
      = (u64sub cur.txBytes prev.txBytes : ℚ) / dtSeconds prev.ts now := by
  simp only [tickIface, mkIfaceStat]
  rw [if_pos hdt]
  exact ⟨rfl, rfl⟩

theorem tickIface_rate_zero (name : String) (m : IfaceMeta) (prev : RawStat)
    (cur : RawCounters) (now : Int) (hist : List HistoryPoint)
    (hdt : ¬ 0 < dtSeconds prev.ts now) :
    (tickIface name m (some prev) cur now hist).1.rxRate = 0
    ∧ (tickIface name m (some prev) cur now hist).1.txRate = 0 := by
  simp only [tickIface, mkIfaceStat]
  rw [if_neg hdt]
  exact ⟨rfl, rfl⟩

/-- C1: for a tick with a previous baseline and strictly positive elapsed
time, the collector computes `RxRate = (cur.rx - prev.rx)/dt` and
`TxRate = (cur.tx - prev.tx)/dt` (monotone counters, no wraparound); when
the elapsed time is non-positive, both rates stay zero, and in either case
the raw counter snapshot is recorded as the new baseline. -/
theorem C1_rate_computation (name : String) (m : IfaceMeta) (prev : RawStat)
    (cur : RawCounters) (now : Int) (hist : List HistoryPoint)
    (hrx : prev.rxBytes ≤ cur.rxBytes) (htx : prev.txBytes ≤ cur.txBytes)
    (hrb : cur.rxBytes < U64) (htb : cur.txBytes < U64) :
    (prev.ts < now →
        (tickIface name m (some prev) cur now hist).1.rxRate
          = ((cur.rxBytes : ℚ) - (prev.rxBytes : ℚ)) / dtSeconds prev.ts now
        ∧ (tickIface name m (some prev) cur now hist).1.txRate
          = ((cur.txBytes : ℚ) - (prev.txBytes : ℚ)) / dtSeconds prev.ts now)
    ∧ (now ≤ prev.ts →
        (tickIface name m (some prev) cur now hist).1.rxRate = 0
        ∧ (tickIface name m (some prev) cur now hist).1.txRate = 0)
    ∧ (tickIface name m (some prev) cur now hist).2.1 = ⟨cur, now⟩ := by
  refine ⟨?_, ?_, tickIface_baseline name m (some prev) cur now hist⟩
  · intro hlt
    have hdt : 0 < dtSeconds prev.ts now := (dtSeconds_pos_iff prev.ts now).mpr hlt
    obtain ⟨h1, h2⟩ := tickIface_rxRate_pos name m prev cur now hist hdt
    rw [h1, h2, u64sub_of_le hrx (lt_of_le_of_lt (Nat.sub_le _ _) hrb),
      u64sub_of_le htx (lt_of_le_of_lt (Nat.sub_le _ _) htb)]
    rw [Nat.cast_sub hrx, Nat.cast_sub htx]
    exact ⟨rfl, rfl⟩
  · intro hle
    have hdt : ¬ 0 < dtSeconds prev.ts now := by
      rw [dtSeconds_pos_iff]
      exact not_lt.mpr hle
    exact tickIface_rate_zero name m prev cur now hist hdt

/-- Witness for C1 at a concrete tick: baseline (rx 100, tx 200) at t = 0,
counters (rx 1100, tx 2200) at t = 2000 ms, so both rates are delta/2s. -/
theorem C1_rate_computation_witness :
    (0 : Int) < 2000
    ∧ (tickIface "eth0" meta0 (some ⟨⟨100, 200, 0, 0, 0, 0, 0, 0⟩, 0⟩)
        ⟨1100, 2200, 0, 0, 0, 0, 0, 0⟩ 2000 []).1.rxRate = 500
    ∧ (tickIface "eth0" meta0 (some ⟨⟨100, 200, 0, 0, 0, 0, 0, 0⟩, 0⟩)
        ⟨1100, 2200, 0, 0, 0, 0, 0, 0⟩ 2000 []).1.txRate = 1000 := by
  have h := (C1_rate_computation "eth0" meta0 ⟨⟨100, 200, 0, 0, 0, 0, 0, 0⟩, 0⟩
    ⟨1100, 2200, 0, 0, 0, 0, 0, 0⟩ 2000 [] (by norm_num) (by norm_num)
    (by norm_num [U64]) (by norm_num [U64])).1 (by norm_num)
  refine ⟨by norm_num, ?_, ?_⟩
  · rw [h.1]
    norm_num [dtSeconds]
  · rw [h.2]
    norm_num [dtSeconds]

/-- Shared helper: with a decreasing rx counter and positive elapsed time,
the computed rx rate is the wrapped modulo-2^64 delta over dt. -/
theorem tickIface_rxRate_of_decrease (name : String) (m : IfaceMeta)
    (prev : RawStat) (cur : RawCounters) (now : Int) (hist : List HistoryPoint)
    (hdec : cur.rxBytes < prev.rxBytes) (hb : prev.rxBytes < U64)
    (hdt : prev.ts < now) :
    (tickIface name m (some prev) cur now hist).1.rxRate
      = ((U64 - (prev.rxBytes - cur.rxBytes) : Nat) : ℚ) / dtSeconds prev.ts now := by
  have hq : 0 < dtSeconds prev.ts now := (dtSeconds_pos_iff prev.ts now).mpr hdt
  rw [(tickIface_rxRate_pos name m prev cur now hist hq).1,
    u64sub_of_lt hdec hb]

/-- C7 counterexample (negation of the claim): there is NO decreasing
same-interface sample pair with positive elapsed time for which the
collector stores the signed rate `(cur - prev)/dt`; Go `uint64`
subtraction wraps, so the stored rate is never that negative value. -/
theorem C7_negative_rate_cx :
    ¬ ∃ (name : String) (m : IfaceMeta) (prev : RawStat) (cur : RawCounters)
        (now : Int) (hist : List HistoryPoint),
      cur.rxBytes < prev.rxBytes ∧ prev.rxBytes < U64 ∧ prev.ts < now ∧
      (tickIface name m (some prev) cur now hist).1.rxRate
        = ((cur.rxBytes : ℚ) - (prev.rxBytes : ℚ)) / dtSeconds prev.ts now := by
  rintro ⟨name, m, prev, cur, now, hist, hdec, hb, hdt, heq⟩
  have hq : 0 < dtSeconds prev.ts now := (dtSeconds_pos_iff prev.ts now).mpr hdt
  have hwrap := tickIface_rxRate_of_decrease name m prev cur now hist hdec hb hdt
  have hposnum : (0 : ℚ) < ((U64 - (prev.rxBytes - cur.rxBytes) : Nat) : ℚ) := by
    have hU : U64 = 18446744073709551616 := by norm_num [U64]
    have : 0 < U64 - (prev.rxBytes - cur.rxBytes) := by omega
    exact_mod_cast this
  have hpos : 0 < (tickIface name m (some prev) cur now hist).1.rxRate := by
    rw [hwrap]
    exact div_pos hposnum hq
  have hnegnum : ((cur.rxBytes : ℚ) - (prev.rxBytes : ℚ)) < 0 := by
    have : (cur.rxBytes : ℚ) < (prev.rxBytes : ℚ) := by exact_mod_cast hdec
    linarith
  have hneg : ((cur.rxBytes : ℚ) - (prev.rxBytes : ℚ)) / dtSeconds prev.ts now < 0 :=
    div_neg_of_neg_of_pos hnegnum hq
  rw [heq] at hpos
  exact absurd hpos (not_lt.mpr (le_of_lt hneg))

/-- C7 amended: when a cumulative rx counter decreases over a positive
elapsed time, the collector computes the rate from the delta wrapped
modulo 2^64 — a huge strictly positive value, never negative — and
propagates it unclamped into the snapshot and the appended history point,
while recording the raw counters as the new baseline (no reseeding). -/
theorem C7_wrapped_delta_amended (name : String) (m : IfaceMeta)
    (prev : RawStat) (cur : RawCounters) (now : Int) (hist : List HistoryPoint)
    (hdec : cur.rxBytes < prev.rxBytes) (hb : prev.rxBytes < U64)
    (hdt : prev.ts < now) :
    (tickIface name m (some prev) cur now hist).1.rxRate
      = ((U64 - (prev.rxBytes - cur.rxBytes) : Nat) : ℚ) / dtSeconds prev.ts now
    ∧ 0 < (tickIface name m (some prev) cur now hist).1.rxRate
    ∧ (tickIface name m (some prev) cur now hist).2.1 = ⟨cur, now⟩
    ∧ (tickIface name m (some prev) cur now hist).2.2
        = prunePass now (hist ++
            [⟨now, (tickIface name m (some prev) cur now hist).1.rxRate,
              (tickIface name m (some prev) cur now hist).1.txRate⟩]) := by
  have hq : 0 < dtSeconds prev.ts now := (dtSeconds_pos_iff prev.ts now).mpr hdt
  have hwrap := tickIface_rxRate_of_decrease name m prev cur now hist hdec hb hdt
  refine ⟨hwrap, ?_, tickIface_baseline name m (some prev) cur now hist, rfl⟩
  rw [hwrap]
  refine div_pos ?_ hq
  have hU : U64 = 18446744073709551616 := by norm_num [U64]
  have : 0 < U64 - (prev.rxBytes - cur.rxBytes) := by omega
  exact_mod_cast this

/-- Witness for C7 amended: rx drops from 1000 to 500 over 1 s, producing
the wrapped positive rate `2^64 - 500`. -/
theorem C7_wrapped_delta_amended_witness :
    (500 : Nat) < 1000 ∧ (1000 : Nat) < U64 ∧ (0 : Int) < 1000
    ∧ (tickIface "eth0" meta0 (some ⟨⟨1000, 0, 0, 0, 0, 0, 0, 0⟩, 0⟩)
        ⟨500, 0, 0, 0, 0, 0, 0, 0⟩ 1000 []).1.rxRate
        = ((18446744073709551616 - 500 : Nat) : ℚ) := by
  have h := C7_wrapped_delta_amended "eth0" meta0 ⟨⟨1000, 0, 0, 0, 0, 0, 0, 0⟩, 0⟩
    ⟨500, 0, 0, 0, 0, 0, 0, 0⟩ 1000 [] (by norm_num) (by norm_num [U64]) (by norm_num)
  refine ⟨by norm_num, by norm_num [U64], by norm_num, ?_⟩
  rw [h.1]
  norm_num [dtSeconds, U64]

theorem prunePass_eq_drop (now : Int) (h : List HistoryPoint) :
    ∃ k, prunePass now h = h.drop k := by
  unfold prunePass
  by_cases hl : historyPruneAt < h.length
  · rw [if_pos hl]
    exact ⟨_, dropWhile_eq_drop _ _⟩
  · rw [if_neg hl]
    exact ⟨0, rfl⟩

theorem prunePass_idem (now : Int) (h : List HistoryPoint) :
    prunePass now (prunePass now h) = prunePass now h := by
  unfold prunePass
  by_cases hl : historyPruneAt < h.length
  · rw [if_pos hl]
    by_cases hl2 : historyPruneAt <
        (h.dropWhile (fun p => decide (p.timestamp < now - historyMaxAgeMs))).length
    · rw [if_pos hl2]
      exact dropWhile_idem _ _
    · rw [if_neg hl2]
  · rw [if_neg hl, if_neg hl]

theorem prunePass_age_of_sorted (now : Int) (h : List HistoryPoint)
    (hs : h.Pairwise (fun p q => p.timestamp ≤ q.timestamp))
    (hlen : historyPruneAt < h.length) :
    ∀ p ∈ prunePass now h, now - p.timestamp ≤ historyMaxAgeMs := by
  intro p hp
  unfold prunePass at hp
  rw [if_pos hlen] at hp
  rw [dropWhile_eq_filter_of_sorted _ (fun p q => p.timestamp ≤ q.timestamp) h hs
    (by
      intro a b hab hb
      simp only [decide_eq_true_eq] at hb ⊢
      omega)] at hp
  have := (List.mem_filter.mp hp).2
  simp only [Bool.not_eq_eq_eq_not, Bool.not_true, decide_eq_false_iff_not, not_lt] at this
  omega

/-- C2 counterexample: three ticks at 0 ms, 1000 ms and 90000000 ms (25 h)
leave a history of two points whose older point is more than 24 h older
than the most recent tick — the length never exceeded 86,400, so no
pruning ran and the age bound is violated. -/
theorem C2_history_retention_cx :
    ((runTicks "eth0" meta0 [(czero, 0), (czero, 1000), (czero, 90000000)]
        ((none : Option RawStat), [])).2.map HistoryPoint.timestamp
      = [1000, 90000000])
    ∧ ∃ p ∈ (runTicks "eth0" meta0 [(czero, 0), (czero, 1000), (czero, 90000000)]
        ((none : Option RawStat), [])).2,
        historyMaxAgeMs < 90000000 - p.timestamp := by
  constructor
  · decide
  · decide

/-- C2 amended: pruning is idempotent and removes points only from the
oldest end; when a pruning pass actually runs (length above 86,400) over a
time-ordered history, every retained point is within 24 hours of the tick
time; neither the count bound nor the age bound holds unconditionally. -/
theorem C2_history_retention_amended (now : Int) (h : List HistoryPoint)
    (hs : h.Pairwise (fun p q => p.timestamp ≤ q.timestamp))
    (hlen : historyPruneAt < h.length) :
    prunePass now (prunePass now h) = prunePass now h
    ∧ (∃ k, prunePass now h = h.drop k)
    ∧ ∀ p ∈ prunePass now h, now - p.timestamp ≤ historyMaxAgeMs :=
  ⟨prunePass_idem now h, prunePass_eq_drop now h,
    prunePass_age_of_sorted now h hs hlen⟩

/-- Witness for the C2 amended theorem on a concrete over-length history:
86,401 points at one-millisecond spacing, pruned at `now` = 90,000,000. -/
theorem C2_history_retention_amended_witness :
    ((milliHist 86401).Pairwise (fun p q => p.timestamp ≤ q.timestamp)
      ∧ historyPruneAt < (milliHist 86401).length)
    ∧ (prunePass 90000000 (prunePass 90000000 (milliHist 86401))
        = prunePass 90000000 (milliHist 86401)
      ∧ (∃ k, prunePass 90000000 (milliHist 86401) = (milliHist 86401).drop k)
      ∧ ∀ p ∈ prunePass 90000000 (milliHist 86401),
          90000000 - p.timestamp ≤ historyMaxAgeMs) := by
  have hs : (milliHist 86401).Pairwise (fun p q => p.timestamp ≤ q.timestamp) := by
    unfold milliHist
    rw [List.pairwise_map]
    refine List.Pairwise.imp ?_ (List.pairwise_lt_range 86401)
    intro a b hab
    simp only
    exact_mod_cast le_of_lt hab
  have hlen : historyPruneAt < (milliHist 86401).length := by
    simp [milliHist, historyPruneAt]
  exact ⟨⟨hs, hlen⟩, C2_history_retention_amended 90000000 _ hs hlen⟩

theorem runTicks_cons (name : String) (m : IfaceMeta) (tk : RawCounters × Int)
    (rest : List (RawCounters × Int)) (s : Option RawStat × List HistoryPoint) :
    runTicks name m (tk :: rest) s = runTicks name m rest (tickStep name m s tk) := rfl

theorem tickStep_hist (name : String) (m : IfaceMeta)
    (s : Option RawStat × List HistoryPoint) (tk : RawCounters × Int) :
    (tickStep name m s tk).2 = (tickIface name m s.1 tk.1 tk.2 s.2).2.2 := rfl

theorem tickStep_prev (name : String) (m : IfaceMeta)
    (s : Option RawStat × List HistoryPoint) (tk : RawCounters × Int) :
    (tickStep name m s tk).1 = some ⟨tk.1, tk.2⟩ := by
  show some (tickIface name m s.1 tk.1 tk.2 s.2).2.1 = _
  rw [tickIface_baseline]

/-- Invariant: over ticks at strictly increasing times all above `b`, a
history whose timestamps are strictly increasing and at most `b` (with a
baseline at most `b`) stays strictly increasing. -/
theorem runTicks_hist_strict (name : String) (m : IfaceMeta)
    (ticks : List (RawCounters × Int)) :
    ∀ (s : Option RawStat × List HistoryPoint) (b : Int),
    List.Pairwise (· < ·) (b :: ticks.map Prod.snd) →
    List.Pairwise (· < ·) (s.2.map HistoryPoint.timestamp) →
    (∀ p ∈ s.2, p.timestamp ≤ b) →
    (∀ pr : RawStat, s.1 = some pr → pr.ts ≤ b) →
    List.Pairwise (· < ·)
      ((runTicks name m ticks s).2.map HistoryPoint.timestamp) := by
  induction ticks with
  | nil =>
      intro s b _ h2 _ _
      exact h2
  | cons tk rest ih =>
      intro s b h1 h2 h3 h4
      rw [List.map_cons] at h1
      have hbt : b < tk.2 := (List.pairwise_cons.mp h1).1 tk.2 (List.mem_cons_self _ _)
      have h1' : List.Pairwise (· < ·) (tk.2 :: rest.map Prod.snd) :=
        (List.pairwise_cons.mp h1).2
      rw [runTicks_cons]
      rcases hs1 : s.1 with _ | prev
      · refine ih (tickStep name m s tk) tk.2 h1' ?_ ?_ ?_
        · rw [tickStep_hist, hs1, tickIface_hist_none]
          exact h2
        · rw [tickStep_hist, hs1, tickIface_hist_none]
          intro p hp
          exact le_of_lt (lt_of_le_of_lt (h3 p hp) hbt)
        · intro pr hpr
          rw [tickStep_prev] at hpr
          injection hpr with hpr
          rw [← hpr]
      · obtain ⟨rx, tx, heq⟩ := tickIface_hist_some name m prev tk.1 tk.2 s.2
        obtain ⟨k, hk⟩ := prunePass_eq_drop tk.2 (s.2 ++ [({ timestamp := tk.2, rxRate := rx, txRate := tx } : HistoryPoint)])
        have hnew : (tickStep name m s tk).2 = (s.2 ++ [({ timestamp := tk.2, rxRate := rx, txRate := tx } : HistoryPoint)]).drop k := by
          rw [tickStep_hist, hs1, heq, hk]
        have hfull : List.Pairwise (· < ·)
            ((s.2 ++ [({ timestamp := tk.2, rxRate := rx, txRate := tx } : HistoryPoint)]).map HistoryPoint.timestamp) := by
          rw [List.map_append, List.pairwise_append]
          refine ⟨h2, by simp, ?_⟩
          intro x hx y hy
          simp only [List.map_cons, List.map_nil, List.mem_singleton] at hy
          rcases List.mem_map.mp hx with ⟨p, hp, hpx⟩
          rw [hy, ← hpx]
          exact lt_of_le_of_lt (h3 p hp) hbt
        refine ih (tickStep name m s tk) tk.2 h1' ?_ ?_ ?_
        · rw [hnew, List.map_drop]
          exact List.Pairwise.sublist (List.drop_sublist _ _) hfull
        · rw [hnew]
          intro p hp
          have hp' : p ∈ s.2 ++ [({ timestamp := tk.2, rxRate := rx, txRate := tx } : HistoryPoint)] := (List.drop_sublist k _).subset hp
          rcases List.mem_append.mp hp' with hin | hin
          · exact le_of_lt (lt_of_le_of_lt (h3 p hin) hbt)
          · rw [List.mem_singleton.mp hin]
        · intro pr hpr
          rw [tickStep_prev] at hpr
          injection hpr with hpr
          rw [← hpr]

/-- C9 counterexample: three ticks at the same instant (elapsed time zero)
append two history points with equal timestamps, so the timestamps are not
strictly increasing. -/
theorem C9_strict_order_cx :
    ((runTicks "eth0" meta0 [(czero, 1000), (czero, 1000), (czero, 1000)]
        ((none : Option RawStat), [])).2.map HistoryPoint.timestamp = [1000, 1000])
    ∧ ¬ List.Pairwise (· < ·)
        ((runTicks "eth0" meta0 [(czero, 1000), (czero, 1000), (czero, 1000)]
          ((none : Option RawStat), [])).2.map HistoryPoint.timestamp) :=
  ⟨by decide, by decide⟩

/-- C9 amended: each tick changes the history by appending at most one
point and dropping a prefix (append-only, pruned only from the oldest
end), and history timestamps are strictly increasing provided every tick
has strictly positive elapsed time; a non-positive-elapsed tick still
appends a point, whose timestamp repeats or precedes its predecessor. -/
theorem C9_history_ordering_amended (name : String) (m : IfaceMeta)
    (ticks : List (RawCounters × Int))
    (hstrict : List.Pairwise (· < ·) (ticks.map Prod.snd)) :
    List.Pairwise (· < ·)
      ((runTicks name m ticks ((none : Option RawStat), [])).2.map
        HistoryPoint.timestamp)
    ∧ ∀ (s : Option RawStat × List HistoryPoint) (tk : RawCounters × Int),
        ∃ (tail : List HistoryPoint) (k : Nat), tail.length ≤ 1
          ∧ (tickStep name m s tk).2 = (s.2 ++ tail).drop k := by
  constructor
  · rcases ticks with _ | ⟨tk, rest⟩
    · simp [runTicks]
    · refine runTicks_hist_strict name m (tk :: rest)
        ((none : Option RawStat), []) (tk.2 - 1) ?_ (by simp) (by simp)
        (by intro pr hpr; cases hpr)
      rw [List.map_cons] at hstrict ⊢
      rw [List.pairwise_cons]
      refine ⟨?_, hstrict⟩
      intro t ht
      rcases List.mem_cons.mp ht with he | hm
      · rw [he]
        omega
      · have := (List.pairwise_cons.mp hstrict).1 t hm
        omega
  · intro s tk
    rcases hs1 : s.1 with _ | prev
    · refine ⟨[], 0, by norm_num, ?_⟩
      rw [List.append_nil, List.drop_zero, tickStep_hist, hs1, tickIface_hist_none]
    · obtain ⟨rx, tx, heq⟩ := tickIface_hist_some name m prev tk.1 tk.2 s.2
      obtain ⟨k, hk⟩ := prunePass_eq_drop tk.2 (s.2 ++ [({ timestamp := tk.2, rxRate := rx, txRate := tx } : HistoryPoint)])
      refine ⟨[({ timestamp := tk.2, rxRate := rx, txRate := tx } : HistoryPoint)], k, by norm_num, ?_⟩
      rw [tickStep_hist, hs1, heq, hk]

/-- Witness for C9 amended: three ticks at 0, 1000 and 2000 ms produce a
strictly increasing history. -/
theorem C9_history_ordering_amended_witness :
    List.Pairwise (fun a b : Int => a < b)
      ([((czero, 0) : RawCounters × Int), (czero, 1000), (czero, 2000)].map Prod.snd)
    ∧ List.Pairwise (· < ·)
        ((runTicks "eth0" meta0 [(czero, 0), (czero, 1000), (czero, 2000)]
          ((none : Option RawStat), [])).2.map HistoryPoint.timestamp) :=
  ⟨by decide,
    (C9_history_ordering_amended "eth0" meta0 [(czero, 0), (czero, 1000), (czero, 2000)]
      (by decide)).1⟩

theorem sparkIdx_mono (L M : Nat) {i j : Nat} (h : i ≤ j) :
    sparkIdx L M i ≤ sparkIdx L M j := by
  unfold sparkIdx
  exact min_le_min (Nat.div_le_div_right (Nat.mul_le_mul_right L h)) (le_refl _)

theorem sparkIdx_lt (L M i : Nat) (hL : 0 < L) : sparkIdx L M i < L := by
  unfold sparkIdx
  exact lt_of_le_of_lt (min_le_right _ _) (Nat.sub_lt hL one_pos)

theorem getD_ts_mono (l : List HistoryPoint)
    (hl : l.Pairwise (fun p q => p.timestamp ≤ q.timestamp))
    {a b : Nat} (hab : a ≤ b) (hb : b < l.length) (d : HistoryPoint) :
    (l.getD a d).timestamp ≤ (l.getD b d).timestamp := by
  have ha : a < l.length := Nat.lt_of_le_of_lt hab hb
  rw [List.getD_eq_getElem _ _ ha, List.getD_eq_getElem _ _ hb]
  rcases Nat.eq_or_lt_of_le hab with heq | hlt
  · subst heq
    exact le_refl _
  · exact (List.pairwise_iff_getElem.mp hl) _ _ ha hb hlt

theorem windowed_eq_filter (cutoff : Int) (hist : List HistoryPoint)
    (hs : hist.Pairwise (fun p q => p.timestamp ≤ q.timestamp)) :
    windowed cutoff hist = hist.filter (fun p => decide (cutoff ≤ p.timestamp)) := by
  unfold windowed
  rw [dropWhile_eq_filter_of_sorted _ (fun p q => p.timestamp ≤ q.timestamp) hist hs
    (by
      intro a b hab hb
      simp only [decide_eq_true_eq] at hb ⊢
      omega)]
  refine List.filter_congr ?_
  intro x _
  rw [← decide_not]
  exact decide_eq_decide.mpr not_lt

theorem windowed_sorted (cutoff : Int) (hist : List HistoryPoint)
    (hs : hist.Pairwise (fun p q => p.timestamp ≤ q.timestamp)) :
    (windowed cutoff hist).Pairwise (fun p q => p.timestamp ≤ q.timestamp) :=
  List.Pairwise.sublist (List.dropWhile_sublist _) hs

/-- C3: downsampling a time-ordered history over a window: the selected
points are exactly those inside the window; the output length is
`min L M`; when `L ≤ M` the output is the windowed subrange unchanged;
when `L > M` the output is produced by nearest-index stepping over
existing samples only; and the selected samples are chronologically
non-decreasing. -/
theorem C3_downsampling (hist : List HistoryPoint) (cutoff : Int) (M : Nat)
    (hs : hist.Pairwise (fun p q => p.timestamp ≤ q.timestamp)) :
    windowed cutoff hist = hist.filter (fun p => decide (cutoff ≤ p.timestamp))
    ∧ (sparklinesOf cutoff M hist).length = min (windowed cutoff hist).length M
    ∧ ((windowed cutoff hist).length ≤ M →
        sparklinesOf cutoff M hist = (windowed cutoff hist).map toSpark)
    ∧ (M < (windowed cutoff hist).length →
        sparklinesOf cutoff M hist = (List.range M).map (fun i =>
          toSpark ((windowed cutoff hist).getD
            (sparkIdx (windowed cutoff hist).length M i) ⟨0, 0, 0⟩)))
    ∧ (∀ s ∈ sparklinesOf cutoff M hist, ∃ p ∈ windowed cutoff hist, s = toSpark p)
    ∧ List.Pairwise (· ≤ ·) ((List.range M).map (fun i =>
        ((windowed cutoff hist).getD (sparkIdx (windowed cutoff hist).length M i)
          ⟨0, 0, 0⟩).timestamp)) := by
  have hws := windowed_sorted cutoff hist hs
  refine ⟨windowed_eq_filter cutoff hist hs, ?_, ?_, ?_, ?_, ?_⟩
  · simp only [sparklinesOf]
    by_cases h0 : (windowed cutoff hist).length = 0
    · rw [if_pos h0, h0]
      simp
    · rw [if_neg h0]
      by_cases hle : (windowed cutoff hist).length ≤ M
      · rw [if_pos hle]
        simp [Nat.min_eq_left hle]
      · rw [if_neg hle]
        simp [Nat.min_eq_right (le_of_not_le hle)]
  · intro hle
    simp only [sparklinesOf]
    by_cases h0 : (windowed cutoff hist).length = 0
    · rw [if_pos h0]
      rw [List.length_eq_zero] at h0
      rw [h0]
      rfl
    · rw [if_neg h0, if_pos hle]
  · intro hlt
    simp only [sparklinesOf]
    have h0 : ¬ (windowed cutoff hist).length = 0 := by omega
    rw [if_neg h0, if_neg (not_le.mpr hlt)]
  · intro s hsmem
    simp only [sparklinesOf] at hsmem
    by_cases h0 : (windowed cutoff hist).length = 0
    · rw [if_pos h0] at hsmem
      cases hsmem
    · rw [if_neg h0] at hsmem
      by_cases hle : (windowed cutoff hist).length ≤ M
      · rw [if_pos hle] at hsmem
        rcases List.mem_map.mp hsmem with ⟨p, hp, hps⟩
        exact ⟨p, hp, hps.symm⟩
      · rw [if_neg hle] at hsmem
        rcases List.mem_map.mp hsmem with ⟨i, _, his⟩
        have hL : 0 < (windowed cutoff hist).length := Nat.pos_of_ne_zero h0
        have hidx := sparkIdx_lt (windowed cutoff hist).length M i hL
        refine ⟨(windowed cutoff hist).getD
          (sparkIdx (windowed cutoff hist).length M i) ⟨0, 0, 0⟩, ?_, his.symm⟩
        rw [List.getD_eq_getElem _ _ hidx]
        exact List.getElem_mem _
  · rw [List.pairwise_iff_getElem]
    intro i j hi hj hij
    simp only [List.getElem_map, List.getElem_range]
    by_cases h0 : (windowed cutoff hist).length = 0
    · rw [List.length_eq_zero] at h0
      rw [h0]
      exact le_refl _
    · have hL : 0 < (windowed cutoff hist).length := Nat.pos_of_ne_zero h0
      exact getD_ts_mono (windowed cutoff hist) hws
        (sparkIdx_mono _ _ (le_of_lt hij))
        (sparkIdx_lt (windowed cutoff hist).length M _ hL) _

/-- Witness for C3 at a concrete history: five sorted points, window
cutoff 1500 (selecting four), at most two output points. -/
theorem C3_downsampling_witness :
    hist5.Pairwise (fun p q => p.timestamp ≤ q.timestamp)
    ∧ (sparklinesOf 1500 2 hist5).length = min (windowed 1500 hist5).length 2
    ∧ (∀ s ∈ sparklinesOf 1500 2 hist5, ∃ p ∈ windowed 1500 hist5, s = toSpark p) := by
  have h := C3_downsampling hist5 1500 2 (by decide)
  exact ⟨by decide, h.2.1, h.2.2.2.2.1⟩

/-- C8: when the interface enumeration fails at the start of a tick, the
whole tick is aborted: the collector state (current, previous, history)
is exactly unchanged, and every query returns exactly what it returned
before — queries have no error channel at all. -/
theorem C8_enum_failure_aborts (env : String → IfaceMeta) (e : String)
    (now durMs : Int) (maxPoints : Nat) (st : CState) :
    poll env (.error e) now st = st
    ∧ getAll (poll env (.error e) now st) = getAll st
    ∧ getHistory (poll env (.error e) now st) = getHistory st
    ∧ getSparklines now durMs maxPoints (poll env (.error e) now st)
        = getSparklines now durMs maxPoints st :=
  ⟨rfl, rfl, rfl, rfl⟩

end BwMon.Collector

namespace BwMon.Capture

/-! ### Capture-mode claim theorems -/

/-- C10: in capture mode, a packet whose source and destination are both
outside the local networks leaves all four accumulators unchanged, while a
packet with both addresses local increments both the RX and the TX byte
accumulators by the packet length and both packet counters by one. -/
theorem C10_direction_accounting (nets : List Cidr) (a : CaptureAcc)
    (pkt : Packet) (info : PktInfo) (hp : parsePacket pkt = some info)
    (h1 : a.rxBytes + info.len < U64) (h2 : a.txBytes + info.len < U64)
    (h3 : a.rxPackets + 1 < U64) (h4 : a.txPackets + 1 < U64) :
    (isLocalIn nets info.src = false → isLocalIn nets info.dst = false →
        processPacket nets pkt a = a)
    ∧ (isLocalIn nets info.src = true → isLocalIn nets info.dst = true →
        processPacket nets pkt a =
          ⟨a.rxBytes + info.len, a.txBytes + info.len,
           a.rxPackets + 1, a.txPackets + 1⟩) := by
  unfold processPacket
  rw [hp]
  constructor
  · intro hsrc hdst
    simp [hsrc, hdst]
  · intro hsrc hdst
    simp only [hsrc, hdst, Bool.not_true, Bool.and_false, Bool.false_and,
      Bool.and_self, if_false, if_true, Bool.false_eq_true]
    rw [w64add_of_lt h1, w64add_of_lt h2, w64add_of_lt h3, w64add_of_lt h4]

/-- Witness for C10: a both-remote TCP packet (8.8.8.8 → 1.1.1.1) changes
nothing; a both-local packet (192.168.1.1 → 192.168.1.2) of IP length 100
adds 100 bytes and one packet to both directions. -/
theorem C10_direction_accounting_witness :
    processPacket lanNets
      (.ipv4 (8 * 2 ^ 24 + 8 * 2 ^ 16 + 8 * 2 ^ 8 + 8)
        (2 ^ 24 + 2 ^ 16 + 2 ^ 8 + 1) 100 .tcp) acc0 = acc0
    ∧ processPacket lanNets
        (.ipv4 (192 * 2 ^ 24 + 168 * 2 ^ 16 + 2 ^ 8 + 1)
          (192 * 2 ^ 24 + 168 * 2 ^ 16 + 2 ^ 8 + 2) 100 .tcp) acc0
        = ⟨0 + 100, 0 + 100, 0 + 1, 0 + 1⟩ := by
  have hA := C10_direction_accounting lanNets acc0
    (.ipv4 (8 * 2 ^ 24 + 8 * 2 ^ 16 + 8 * 2 ^ 8 + 8)
      (2 ^ 24 + 2 ^ 16 + 2 ^ 8 + 1) 100 .tcp)
    ⟨.v4 (8 * 2 ^ 24 + 8 * 2 ^ 16 + 8 * 2 ^ 8 + 8),
      .v4 (2 ^ 24 + 2 ^ 16 + 2 ^ 8 + 1), 100, .v4, .tcp⟩
    (by decide) (by decide) (by decide) (by decide) (by decide)
  have hB := C10_direction_accounting lanNets acc0
    (.ipv4 (192 * 2 ^ 24 + 168 * 2 ^ 16 + 2 ^ 8 + 1)
      (192 * 2 ^ 24 + 168 * 2 ^ 16 + 2 ^ 8 + 2) 100 .tcp)
    ⟨.v4 (192 * 2 ^ 24 + 168 * 2 ^ 16 + 2 ^ 8 + 1),
      .v4 (192 * 2 ^ 24 + 168 * 2 ^ 16 + 2 ^ 8 + 2), 100, .v4, .tcp⟩
    (by decide) (by decide) (by decide) (by decide) (by decide)
  exact ⟨hA.1 (by decide) (by decide), hB.2 (by decide) (by decide)⟩

end BwMon.Capture

namespace BwMon.Talkers

/-! ### Talkers claim theorems: per-packet attribution (C4) -/

/-- C4: for an ingested IP packet while a bucket is open (distinct source
and destination): each non-local role gets exactly the packet length and
one packet added to its accumulator in the current bucket; a both-local
packet changes no per-IP accumulator; the attributed length of IPv4 is
the header total-length field and of IPv6 the payload length plus 40; and
the three-packet 100+200+300 scenario makes `topByVolume 1` report the
external IP with 600 bytes and 3 packets. -/
theorem C4_attribution (t : Tracker) (cur : Bucket) (pkt : Packet)
    (info : PktInfo) (hcur : t.current = some cur)
    (hp : parsePacket pkt = some info) (hne : info.src ≠ info.dst) :
    (isPrivateIP info.src = false →
        alookup info.src (curHosts (processPacket pkt t))
          = some ⟨w64add (((alookup info.src cur.hosts).getD ⟨0, 0⟩).bytes) info.len,
                  w64add (((alookup info.src cur.hosts).getD ⟨0, 0⟩).packets) 1⟩)
    ∧ (isPrivateIP info.dst = false →
        alookup info.dst (curHosts (processPacket pkt t))
          = some ⟨w64add (((alookup info.dst cur.hosts).getD ⟨0, 0⟩).bytes) info.len,
                  w64add (((alookup info.dst cur.hosts).getD ⟨0, 0⟩).packets) 1⟩)
    ∧ (isPrivateIP info.src = true → isPrivateIP info.dst = true →
        curHosts (processPacket pkt t) = cur.hosts)
    ∧ (∀ s d len l4, (parsePacket (Packet.ipv4 s d len l4)).map PktInfo.len
          = some (len % 2 ^ 16))
    ∧ (∀ s d pl l4, (parsePacket (Packet.ipv6 s d pl l4)).map PktInfo.len
          = some (pl % 2 ^ 16 + 40))
    ∧ ((topByVolume 1 scenarioT).map (fun s => (s.ip, s.totalBytes, s.packets))
        = [(IP.v4 extIPn, 600, 3)]) := by
  have hch : curHosts (processPacket pkt t)
      = [info.src, info.dst].foldl
          (fun hs ip => if isPrivateIP ip then hs else bumpHost ip info.len hs)
          cur.hosts := by
    unfold processPacket
    rw [hp, hcur]
    rfl
  refine ⟨?_, ?_, ?_, by intro s d len l4; rfl, by intro s d pl l4; rfl, by decide⟩
  · intro hsrc
    rw [hch]
    simp only [List.foldl]
    by_cases hdst : isPrivateIP info.dst
    · rw [if_pos hdst, if_neg (show ¬ isPrivateIP info.src = true by simp [hsrc])]
      unfold bumpHost
      exact alookup_aupdate_self _ _ _
    · rw [if_neg hdst, if_neg (show ¬ isPrivateIP info.src = true by simp [hsrc])]
      unfold bumpHost
      rw [alookup_aupdate_other _ _ (Ne.symm hne)]
      exact alookup_aupdate_self _ _ _
  · intro hdst
    rw [hch]
    simp only [List.foldl]
    by_cases hsrc : isPrivateIP info.src
    · rw [if_neg (show ¬ isPrivateIP info.dst = true by simp [hdst]), if_pos hsrc]
      unfold bumpHost
      exact alookup_aupdate_self _ _ _
    · rw [if_neg (show ¬ isPrivateIP info.dst = true by simp [hdst]), if_neg hsrc]
      unfold bumpHost
      rw [alookup_aupdate_self, alookup_aupdate_other _ _ hne]
  · intro hsrc hdst
    rw [hch]
    simp only [List.foldl]
    rw [if_pos hsrc, if_pos hdst]

/-- Witness for C4 at the first scenario packet: the external source IP
accumulator of the fresh bucket becomes 100 bytes, 1 packet. -/
theorem C4_attribution_witness :
    isPrivateIP (IP.v4 extIPn) = false
    ∧ alookup (IP.v4 extIPn)
        (curHosts (processPacket (.ipv4 extIPn locIPn 100 .tcp) tEmpty))
        = some ⟨w64add 0 100, w64add 0 1⟩ := by
  have h := (C4_attribution tEmpty (mkBucket 0) (.ipv4 extIPn locIPn 100 .tcp)
    ⟨.v4 extIPn, .v4 locIPn, 100, .v4, .tcp⟩ rfl (by decide) (by decide)).1 (by decide)
  refine ⟨by decide, ?_⟩
  rw [h]
  rfl

end BwMon.Talkers

namespace BwMon.Talkers

/-! ### Bucket rotation lemmas and claim C6 -/

theorem rotateStep_current (now : Int) (t : Tracker) :
    (rotateStep now t).current = some (mkBucket (truncMinute now)) := by
  unfold rotateStep
  rcases t.current <;> rfl

theorem rotateStep_buckets_some (now : Int) (t : Tracker) (c : Bucket)
    (h : t.current = some c) :
    (rotateStep now t).buckets
      = (t.buckets ++ [c]).dropWhile (fun b => decide (b.timestamp < now - maxAgeMs)) := by
  unfold rotateStep
  rw [h]

theorem rotateStep_buckets_drop (now : Int) (t : Tracker) :
    ∃ k, (rotateStep now t).buckets = (t.buckets ++ t.current.toList).drop k := by
  unfold rotateStep
  rcases t.current with _ | c
  · refine ⟨(t.buckets.takeWhile
      (fun b => decide (b.timestamp < now - maxAgeMs))).length, ?_⟩
    simp only [Option.toList_none, List.append_nil]
    exact dropWhile_eq_drop _ _
  · refine ⟨((t.buckets ++ [c]).takeWhile
      (fun b => decide (b.timestamp < now - maxAgeMs))).length, ?_⟩
    simp only [Option.toList_some]
    exact dropWhile_eq_drop _ _

theorem processPacket_buckets (pkt : Packet) (t : Tracker) :
    (processPacket pkt t).buckets = t.buckets := by
  unfold processPacket
  cases hpp : parsePacket pkt with
  | none => rfl
  | some info =>
      cases hcur : t.current with
      | none => rfl
      | some c => rfl

theorem processPacket_current_isSome (pkt : Packet) (t : Tracker) :
    (processPacket pkt t).current.isSome = t.current.isSome := by
  unfold processPacket
  cases hpp : parsePacket pkt with
  | none => rfl
  | some info =>
      cases hcur : t.current with
      | none => simp [hcur]
      | some c => simp [hcur]

theorem simulateRot_succ (n : Nat) :
    simulateRot (n + 1)
      = rotateStep (((n : Int) + 1) * bucketSizeMs) (simulateRot n) := by
  unfold simulateRot
  rw [List.range_succ, List.foldl_append]
  rfl

/-- The rotation-simulation invariant: after `n` minute rotations the
sealed buckets are exactly the empty buckets of minutes
`n - 1440, ..., n - 1` (at most 1440 of them), and the open bucket is the
minute-`n` bucket. -/
theorem simulateRot_spec (n : Nat) :
    (simulateRot n).buckets = (List.range' (n - 1440) (min n 1440)).map simBucket
    ∧ (simulateRot n).current = some (simBucket n) := by
  induction n with
  | zero =>
      constructor
      · rfl
      · rfl
  | succ n ih =>
      rw [simulateRot_succ]
      constructor
      · rw [rotateStep_buckets_some _ _ _ ih.2, ih.1]
        have hcat : (List.range' (n - 1440) (min n 1440)).map simBucket
            ++ [simBucket n] = (List.range' (n - 1440) (min n 1440 + 1)).map simBucket := by
          rw [show [simBucket n] = List.map simBucket [n] from rfl, ← List.map_append]
          congr 1
          have hn : n - 1440 + 1 * min n 1440 = n := by omega
          rw [List.range'_concat, hn]
        rw [hcat]
        by_cases hb : n + 1 ≤ 1440
        · have h1 : n - 1440 = 0 := by omega
          have h2 : min n 1440 + 1 = n + 1 := by omega
          have h3 : (n + 1) - 1440 = 0 := by omega
          have h4 : min (n + 1) 1440 = n + 1 := by omega
          rw [h1, h2, h3, h4]
          rw [List.range'_succ, List.map_cons, List.dropWhile_cons, if_neg ?hpred]
          case hpred =>
            simp only [simBucket, mkBucket, decide_eq_true_eq, not_lt, bucketSizeMs, maxAgeMs]
            omega
        · have h2 : min n 1440 + 1 = 1441 := by omega
          have h4 : min (n + 1) 1440 = 1440 := by omega
          rw [h2, h4]
          have e1 : n - 1440 + 1 = n - 1439 := by omega
          have e2 : n - 1439 + 1 = n - 1438 := by omega
          have hsplit : List.range' (n - 1440) 1441
              = (n - 1440) :: (n - 1439) :: List.range' (n - 1438) 1439 := by
            rw [show (1441 : Nat) = 1439 + 1 + 1 from by norm_num]
            rw [List.range'_succ, e1, List.range'_succ, e2]
          rw [hsplit, List.map_cons, List.map_cons, List.dropWhile_cons, if_pos ?hp1,
            List.dropWhile_cons, if_neg ?hp2]
          case hp1 =>
            simp only [simBucket, mkBucket, decide_eq_true_eq, bucketSizeMs, maxAgeMs]
            omega
          case hp2 =>
            simp only [simBucket, mkBucket, decide_eq_true_eq, not_lt, bucketSizeMs, maxAgeMs]
            omega
          have hstart : (n + 1) - 1440 = n - 1439 := by omega
          rw [hstart]
          have htail : List.range' (n - 1439) 1440
              = (n - 1439) :: List.range' (n - 1438) 1439 := by
            rw [show (1440 : Nat) = 1439 + 1 from by norm_num, List.range'_succ, e2]
          rw [htail, List.map_cons]
      · rw [rotateStep_current]
        unfold simBucket truncMinute bucketSizeMs
        congr 2
        rw [Int.mul_ediv_cancel _ (by norm_num)]
        push_cast
        ring

end BwMon.Talkers

namespace BwMon.Talkers

/-- C6: rotation always leaves exactly one open bucket (fresh and empty at
the truncated rotation time); sealing/pruning only appends the old current
bucket and drops sealed buckets from the oldest end; packet ingestion
never touches sealed buckets (they are immutable once sealed); and after
`n ≥ 1440` one-minute rotations the sealed-bucket count is exactly 1,440
with every retained bucket within the last 24 hours. -/
theorem C6_bucket_rotation (n : Nat) (hn : 1440 ≤ n) :
    (∀ (t : Tracker) (now : Int),
        (rotateStep now t).current = some (mkBucket (truncMinute now)))
    ∧ (∀ (t : Tracker) (now : Int), ∃ k,
        (rotateStep now t).buckets = (t.buckets ++ t.current.toList).drop k)
    ∧ (∀ (pkt : Packet) (t : Tracker), (processPacket pkt t).buckets = t.buckets)
    ∧ (∀ (pkt : Packet) (t : Tracker),
        (processPacket pkt t).current.isSome = t.current.isSome)
    ∧ (simulateRot n).buckets.length = 1440
    ∧ ∀ b ∈ (simulateRot n).buckets,
        60000 * (n : Int) - b.timestamp ≤ 86400000 := by
  refine ⟨fun t now => rotateStep_current now t,
    fun t now => rotateStep_buckets_drop now t, processPacket_buckets,
    processPacket_current_isSome, ?_, ?_⟩
  · rw [(simulateRot_spec n).1, List.length_map, List.length_range']
    omega
  · intro b hb
    rw [(simulateRot_spec n).1] at hb
    rcases List.mem_map.mp hb with ⟨j, hj, hbj⟩
    rw [List.mem_range'_1] at hj
    rw [← hbj]
    simp only [simBucket, mkBucket]
    omega

/-- Witness for C6: after 1,500 one-minute rotations (25 hours) the sealed
bucket count is exactly 1,440 and every bucket is within 24 hours. -/
theorem C6_bucket_rotation_witness :
    (1440 : Nat) ≤ 1500
    ∧ (simulateRot 1500).buckets.length = 1440
    ∧ ∀ b ∈ (simulateRot 1500).buckets,
        60000 * (1500 : Int) - b.timestamp ≤ 86400000 := by
  have h := C6_bucket_rotation 1500 (by norm_num)
  exact ⟨by norm_num, h.2.2.2.2.1, h.2.2.2.2.2⟩

end BwMon.Talkers

namespace BwMon

theorem aupdate_mem {κ β : Type} [DecidableEq κ] (k : κ) (v : β)
    (l : List (κ × β)) : ∀ q ∈ aupdate k v l, q = (k, v) ∨ q ∈ l := by
  intro q hq
  unfold aupdate at hq
  by_cases hs : (alookup k l).isSome
  · rw [if_pos hs] at hq
    rcases List.mem_map.mp hq with ⟨p, hp, hpq⟩
    by_cases hpk : p.1 = k
    · rw [if_pos hpk] at hpq
      exact Or.inl hpq.symm
    · rw [if_neg hpk] at hpq
      exact Or.inr (hpq ▸ hp)
  · rw [if_neg hs] at hq
    rcases List.mem_append.mp hq with h | h
    · exact Or.inr h
    · exact Or.inl (List.mem_singleton.mp h)

end BwMon

namespace BwMon.Talkers

/-! ### Volume-aggregation lemmas for C5 -/

theorem w64add_lt (a b : Nat) : w64add a b < U64 :=
  Nat.mod_lt _ (by norm_num [U64])

theorem entriesBounded_nil : entriesBounded [] := by
  intro p hp
  cases hp

theorem entriesBounded_aupdate (k : IP) (v : HostAccum)
    (l : List (IP × HostAccum)) (hl : entriesBounded l)
    (hv : v.bytes < U64 ∧ v.packets < U64) :
    entriesBounded (aupdate k v l) := by
  intro q hq
  rcases aupdate_mem k v l q hq with he | hm
  · rw [he]
    exact hv
  · exact hl q hm

theorem entriesBounded_addHosts (hs : List (IP × HostAccum)) :
    ∀ ts, entriesBounded ts → entriesBounded (addHosts ts hs) := by
  induction hs with
  | nil => intro ts h; exact h
  | cons p t ih =>
      intro ts h
      exact ih _ (entriesBounded_aupdate _ _ _ h ⟨w64add_lt _ _, w64add_lt _ _⟩)

theorem alookup_addHosts (hs : List (IP × HostAccum)) :
    ∀ (ts : List (IP × HostAccum)) (ip : IP), entriesBounded ts →
    (hs.map Prod.fst).Nodup →
    (alookup ip (addHosts ts hs)).getD ⟨0, 0⟩
      = ⟨w64add ((alookup ip ts).getD ⟨0, 0⟩).bytes
            ((alookup ip hs).getD ⟨0, 0⟩).bytes,
         w64add ((alookup ip ts).getD ⟨0, 0⟩).packets
            ((alookup ip hs).getD ⟨0, 0⟩).packets⟩ := by
  induction hs with
  | nil =>
      intro ts ip hb _
      show (alookup ip ts).getD ⟨0, 0⟩ = _
      rcases ho : alookup ip ts with _ | v
      · rfl
      · have hv : v.bytes < U64 ∧ v.packets < U64 := by
          simpa using hb _ (mem_of_alookup ho)
        have h1 : w64add v.bytes 0 = v.bytes := w64add_of_lt (by omega)
        have h2 : w64add v.packets 0 = v.packets := w64add_of_lt (by omega)
        simp only [Option.getD_some, alookup, Option.getD_none]
        rw [h1, h2]
  | cons p t ih =>
      intro ts ip hb hnd
      rw [List.map_cons, List.nodup_cons] at hnd
      have hstep : addHosts ts (p :: t)
          = addHosts (aupdate p.1
              ⟨w64add ((alookup p.1 ts).getD ⟨0, 0⟩).bytes p.2.bytes,
               w64add ((alookup p.1 ts).getD ⟨0, 0⟩).packets p.2.packets⟩ ts) t := rfl
      rw [hstep]
      have hb2 : entriesBounded (aupdate p.1
          ⟨w64add ((alookup p.1 ts).getD ⟨0, 0⟩).bytes p.2.bytes,
           w64add ((alookup p.1 ts).getD ⟨0, 0⟩).packets p.2.packets⟩ ts) :=
        entriesBounded_aupdate _ _ _ hb ⟨w64add_lt _ _, w64add_lt _ _⟩
      rw [ih _ ip hb2 hnd.2]
      by_cases hik : p.1 = ip
      · subst hik
        rw [alookup_aupdate_self]
        have hnone : alookup p.1 t = none :=
          (alookup_eq_none_iff p.1 t).mpr hnd.1
        rw [hnone]
        show (⟨w64add (w64add _ _) 0, w64add (w64add _ _) 0⟩ : HostAccum) = _
        have h1 : w64add (w64add ((alookup p.1 ts).getD ⟨0, 0⟩).bytes p.2.bytes) 0
            = w64add ((alookup p.1 ts).getD ⟨0, 0⟩).bytes p.2.bytes :=
          w64add_of_lt (by have := w64add_lt ((alookup p.1 ts).getD ⟨0, 0⟩).bytes p.2.bytes; omega)
        have h2 : w64add (w64add ((alookup p.1 ts).getD ⟨0, 0⟩).packets p.2.packets) 0
            = w64add ((alookup p.1 ts).getD ⟨0, 0⟩).packets p.2.packets :=
          w64add_of_lt (by have := w64add_lt ((alookup p.1 ts).getD ⟨0, 0⟩).packets p.2.packets; omega)
        rw [h1, h2]
        have hhead : alookup p.1 (p :: t) = some p.2 := by
          rw [alookup, if_pos rfl]
        rw [hhead]
        rfl
      · rw [alookup_aupdate_other _ _ hik]
        have hhead : alookup ip (p :: t) = alookup ip t := by
          rw [alookup, if_neg hik]
        rw [hhead]

theorem volumeTotals_eq (t : Tracker) :
    volumeTotals t
      = (t.buckets ++ t.current.toList).foldl (fun a b => addHosts a b.hosts) [] := by
  unfold volumeTotals
  cases hc : t.current with
  | none => simp
  | some c => simp [List.foldl_append]

theorem alookup_foldl_addHosts (bs : List Bucket) :
    ∀ (ts : List (IP × HostAccum)) (ip : IP), entriesBounded ts →
    (∀ b ∈ bs, (b.hosts.map Prod.fst).Nodup) →
    ((alookup ip (bs.foldl (fun a b => addHosts a b.hosts) ts)).getD ⟨0, 0⟩).bytes
        = bs.foldl (fun acc b => w64add acc (((alookup ip b.hosts).getD ⟨0, 0⟩).bytes))
            (((alookup ip ts).getD ⟨0, 0⟩).bytes)
    ∧ ((alookup ip (bs.foldl (fun a b => addHosts a b.hosts) ts)).getD ⟨0, 0⟩).packets
        = bs.foldl (fun acc b => w64add acc (((alookup ip b.hosts).getD ⟨0, 0⟩).packets))
            (((alookup ip ts).getD ⟨0, 0⟩).packets) := by
  induction bs with
  | nil =>
      intro ts ip _ _
      exact ⟨rfl, rfl⟩
  | cons b rest ih =>
      intro ts ip hb hnd
      have hnd1 : (b.hosts.map Prod.fst).Nodup := hnd b (List.mem_cons_self _ _)
      have hnd2 : ∀ x ∈ rest, (x.hosts.map Prod.fst).Nodup := fun x hx =>
        hnd x (List.mem_cons_of_mem _ hx)
      have hb2 : entriesBounded (addHosts ts b.hosts) :=
        entriesBounded_addHosts _ _ hb
      have hstep := alookup_addHosts b.hosts ts ip hb hnd1
      obtain ⟨ih1, ih2⟩ := ih (addHosts ts b.hosts) ip hb2 hnd2
      constructor
      · rw [List.foldl_cons, List.foldl_cons, ih1, hstep]
      · rw [List.foldl_cons, List.foldl_cons, ih2, hstep]

theorem alookup_volumeTotals (t : Tracker) (ip : IP)
    (hnd : ∀ b ∈ t.buckets ++ t.current.toList, (b.hosts.map Prod.fst).Nodup) :
    ((alookup ip (volumeTotals t)).getD ⟨0, 0⟩).bytes = ipTotalBytes t ip
    ∧ ((alookup ip (volumeTotals t)).getD ⟨0, 0⟩).packets = ipTotalPackets t ip := by
  rw [volumeTotals_eq]
  have h := alookup_foldl_addHosts (t.buckets ++ t.current.toList) [] ip
    entriesBounded_nil hnd
  unfold ipTotalBytes ipTotalPackets
  exact h

theorem addHosts_nodupKeys (hs : List (IP × HostAccum)) :
    ∀ ts, ((ts : List (IP × HostAccum)).map Prod.fst).Nodup →
    ((addHosts ts hs).map Prod.fst).Nodup := by
  induction hs with
  | nil => intro ts h; exact h
  | cons p t ih =>
      intro ts h
      exact ih _ (nodup_fstmap_aupdate _ _ _ h)

theorem volumeTotals_nodupKeys (t : Tracker) :
    ((volumeTotals t).map Prod.fst).Nodup := by
  rw [volumeTotals_eq]
  generalize t.buckets ++ t.current.toList = bs
  have : ∀ (bs : List Bucket) (ts : List (IP × HostAccum)),
      (ts.map Prod.fst).Nodup →
      ((bs.foldl (fun a b => addHosts a b.hosts) ts).map Prod.fst).Nodup := by
    intro bs
    induction bs with
    | nil => intro ts h; exact h
    | cons b rest ih =>
        intro ts h
        exact ih _ (addHosts_nodupKeys _ _ h)
  exact this bs [] (by simp)

theorem enrichGeo_fields (t : Tracker) (s : TalkerStat) :
    (enrichGeo t s).ip = s.ip ∧ (enrichGeo t s).totalBytes = s.totalBytes
    ∧ (enrichGeo t s).packets = s.packets
    ∧ (enrichGeo t s).rateBytes = s.rateBytes := by
  unfold enrichGeo
  cases hg : t.geoDB with
  | none => exact ⟨rfl, rfl, rfl, rfl⟩
  | some look =>
      cases hl : look s.ip with
      | none => simp [hl]
      | some g => simp [hl]

end BwMon.Talkers

namespace BwMon.Talkers

/-- C5 counterexample: two external IPs with 100 bytes each give a
`topByVolume 2` whose totals are tied, so the output is not sorted
STRICTLY descending. -/
theorem C5_strict_descending_cx :
    ((topByVolume 2 tieT).map (fun s => s.totalBytes) = [100, 100])
    ∧ ¬ ((topByVolume 2 tieT).map (fun s => s.totalBytes)).Pairwise
        (fun a b => a > b) :=
  ⟨by decide, by decide⟩

/-- C5 amended: both top queries return at most `n` entries sorted in
non-increasing (descending, ties allowed) order of their metric and an
empty list when nothing has been observed; `topByBandwidth` reads only
the current bucket, with rate = bucket bytes / max(1, elapsed seconds);
`topByVolume` entries carry the modulo-2^64 sums of each accumulator over
sealed buckets plus the current one. -/
theorem C5_top_queries_amended (n : Nat) (now : Int) (t : Tracker)
    (hnd : ∀ b ∈ t.buckets ++ t.current.toList, (b.hosts.map Prod.fst).Nodup) :
    (topByVolume n t).length ≤ n
    ∧ (topByVolume n t).Pairwise byVolumeGe
    ∧ (topByBandwidth n now t).length ≤ n
    ∧ (topByBandwidth n now t).Pairwise byRateGe
    ∧ (t.buckets = [] → t.current = none → topByVolume n t = [])
    ∧ (∀ ts0, t.buckets = [] → t.current = some (mkBucket ts0) → topByVolume n t = [])
    ∧ (t.current = none → topByBandwidth n now t = [])
    ∧ (∀ ts0, t.current = some (mkBucket ts0) → topByBandwidth n now t = [])
    ∧ (∀ bs, topByBandwidth n now { t with buckets := bs } = topByBandwidth n now t)
    ∧ (∀ x y : Int, elapsedSec x y = max (((x - y : Int) : ℚ) / 1000) 1)
    ∧ (∀ cur, t.current = some cur → ∀ s ∈ topByBandwidth n now t,
        ∃ p ∈ cur.hosts, s.ip = p.1 ∧ s.totalBytes = p.2.bytes
          ∧ s.packets = p.2.packets
          ∧ s.rateBytes = (p.2.bytes : ℚ) / elapsedSec now cur.timestamp)
    ∧ (∀ s ∈ topByVolume n t,
        s.totalBytes = ipTotalBytes t s.ip ∧ s.packets = ipTotalPackets t s.ip) := by
  refine ⟨?_, ?_, ?_, ?_, ?_, ?_, ?_, ?_, ?_, ?_, ?_, ?_⟩
  · exact List.length_take_le _ _
  · exact List.Pairwise.sublist (List.take_sublist _ _)
      (List.sorted_insertionSort byVolumeGe _)
  · unfold topByBandwidth
    cases hc : t.current with
    | none => simp
    | some cur => exact List.length_take_le _ _
  · unfold topByBandwidth
    cases hc : t.current with
    | none => simp
    | some cur =>
        exact List.Pairwise.sublist (List.take_sublist _ _)
          (List.sorted_insertionSort byRateGe _)
  · intro hb hc
    have hv : volumeTotals t = [] := by
      unfold volumeTotals
      rw [hc, hb]
      rfl
    unfold topByVolume
    rw [hv]
    exact List.take_nil
  · intro ts0 hb hc
    have hv : volumeTotals t = [] := by
      unfold volumeTotals
      rw [hc, hb]
      rfl
    unfold topByVolume
    rw [hv]
    exact List.take_nil
  · intro hc
    unfold topByBandwidth
    rw [hc]
  · intro ts0 hc
    unfold topByBandwidth
    rw [hc]
    exact List.take_nil
  · intro bs
    rfl
  · intro x y
    unfold elapsedSec
    by_cases h : ((x - y : Int) : ℚ) / 1000 < 1
    · rw [if_pos h, max_eq_right (le_of_lt h)]
    · rw [if_neg h, max_eq_left (not_lt.mp h)]
  · intro cur hc s hs
    unfold topByBandwidth at hs
    rw [hc] at hs
    have hs2 : s ∈ (cur.hosts.map (fun p =>
        enrichGeo t
          { ip := p.1, hostname := resolveIP t p.1, country := ""
          , countryName := "", asn := 0, asOrg := ""
          , totalBytes := p.2.bytes
          , rateBytes := (p.2.bytes : ℚ) / elapsedSec now cur.timestamp
          , packets := p.2.packets })).insertionSort byRateGe :=
      (List.take_sublist _ _).subset hs
    rw [List.mem_insertionSort] at hs2
    rcases List.mem_map.mp hs2 with ⟨p, hp, hps⟩
    refine ⟨p, hp, ?_, ?_, ?_, ?_⟩
    · rw [← hps, (enrichGeo_fields t _).1]
    · rw [← hps, (enrichGeo_fields t _).2.1]
    · rw [← hps, (enrichGeo_fields t _).2.2.1]
    · rw [← hps, (enrichGeo_fields t _).2.2.2]
  · intro s hs
    unfold topByVolume at hs
    have hs2 : s ∈ ((volumeTotals t).map (fun p =>
        enrichGeo t
          { ip := p.1, hostname := resolveIP t p.1, country := ""
          , countryName := "", asn := 0, asOrg := ""
          , totalBytes := p.2.bytes, rateBytes := 0
          , packets := p.2.packets })).insertionSort byVolumeGe :=
      (List.take_sublist _ _).subset hs
    rw [List.mem_insertionSort] at hs2
    rcases List.mem_map.mp hs2 with ⟨p, hp, hps⟩
    obtain ⟨pk, pv⟩ := p
    have hlk : alookup pk (volumeTotals t) = some pv :=
      alookup_of_mem_nodup (volumeTotals_nodupKeys t) hp
    have hvt := alookup_volumeTotals t pk hnd
    rw [hlk] at hvt
    simp only [Option.getD_some] at hvt
    constructor
    · rw [← hps, (enrichGeo_fields t _).2.1, (enrichGeo_fields t _).1]
      exact hvt.1
    · rw [← hps, (enrichGeo_fields t _).2.2.1, (enrichGeo_fields t _).1]
      exact hvt.2

/-- Witness for C5 amended on the three-packet scenario tracker. -/
theorem C5_top_queries_amended_witness :
    (∀ b ∈ scenarioT.buckets ++ scenarioT.current.toList,
        (b.hosts.map Prod.fst).Nodup)
    ∧ (topByVolume 1 scenarioT).length ≤ 1
    ∧ (topByVolume 1 scenarioT).Pairwise byVolumeGe
    ∧ ∀ s ∈ topByVolume 1 scenarioT,
        s.totalBytes = ipTotalBytes scenarioT s.ip
          ∧ s.packets = ipTotalPackets scenarioT s.ip := by
  have hnd : ∀ b ∈ scenarioT.buckets ++ scenarioT.current.toList,
      (b.hosts.map Prod.fst).Nodup := by decide
  have h := C5_top_queries_amended 1 0 scenarioT hnd
  exact ⟨hnd, h.1, h.2.1, h.2.2.2.2.2.2.2.2.2.2.2⟩

end BwMon.Talkers
